import Mathlib

set_option maxRecDepth 4000

/-!
Verification of the chat-app message-search backend.

This file gives a shallow embedding, in Lean 4, of the searching and
embedding code of the repository (backend/utils/embeddings.js,
backend/utils/localEmbeddings.js, backend/utils/enhancedSearch.js,
backend/utils/vectorDatabase.js, and the message routes), together with
theorems settling the specification claims about that code.

Modelling conventions:
- JavaScript numbers are modelled as real numbers; exact decimal literals
  such as 0.15 become the rationals they denote.  Scores inside the
  result-merging code, which uses only field operations and rounding, are
  modelled over the rationals so that the definitions stay executable.
- External effects (HTTP responses of embedding providers, the message
  store, the remote vector index) are passed in explicitly as oracle
  values; a JavaScript function that can reject is modelled as an
  Except-valued function, and a try/catch as a match on that value.
- JavaScript Array.prototype.sort with a consistent comparator is a
  stable sort; it is modelled with List.insertionSort, which is stable.
-/

/-! ## Vector helpers shared by all cosine-similarity implementations

Each JS implementation runs one loop accumulating dotProduct, normA and
normB; the three accumulators are modelled as the three sums below. -/

/-- Sum of squares of a vector: the accumulator normA (resp. normB). -/
def sumSquares (v : List ℝ) : ℝ := (v.map (fun x => x * x)).sum

/-- Dot product accumulator; every implementation only reaches the loop
after an equal-length check, so zipWith is faithful. -/
def dotProd (v w : List ℝ) : ℝ := (List.zipWith (fun x y => x * y) v w).sum

theorem sumSquares_cons (a : ℝ) (v : List ℝ) :
    sumSquares (a :: v) = a * a + sumSquares v := rfl

theorem dotProd_cons (a b : ℝ) (v w : List ℝ) :
    dotProd (a :: v) (b :: w) = a * b + dotProd v w := rfl

theorem sumSquares_nonneg (v : List ℝ) : 0 ≤ sumSquares v := by
  induction v with
  | nil => simp [sumSquares]
  | cons a v ih =>
    rw [sumSquares_cons]
    exact add_nonneg (mul_self_nonneg a) ih

theorem dotProd_comm (v w : List ℝ) : dotProd v w = dotProd w v := by
  induction v generalizing w with
  | nil => cases w <;> rfl
  | cons a v ih =>
    cases w with
    | nil => rfl
    | cons b w =>
      have h2 : dotProd (b :: w) (a :: v) = b * a + dotProd w v := rfl
      rw [dotProd_cons, h2, ih, mul_comm]

theorem dotProd_self (v : List ℝ) : dotProd v v = sumSquares v := by
  induction v with
  | nil => rfl
  | cons a v ih => rw [dotProd_cons, sumSquares_cons, ih]

theorem sumSquares_eq_zero_entries {v : List ℝ} (h : sumSquares v = 0) :
    ∀ x ∈ v, x = 0 := by
  induction v with
  | nil => simp
  | cons a v ih =>
    have ha : 0 ≤ a * a := mul_self_nonneg a
    have hs : 0 ≤ sumSquares v := sumSquares_nonneg v
    have h0 : a * a + sumSquares v = 0 := h
    have haz : a * a = 0 := by linarith
    have hvz : sumSquares v = 0 := by linarith
    intro x hx
    rcases List.mem_cons.mp hx with hx | hx
    · rw [hx]; exact mul_self_eq_zero.mp haz
    · exact ih hvz x hx

theorem sumSquares_replicate_zero (n : ℕ) :
    sumSquares (List.replicate n (0:ℝ)) = 0 := by
  induction n with
  | zero => rfl
  | succ n ih =>
    have h : sumSquares (List.replicate (n+1) (0:ℝ)) =
        0 * 0 + sumSquares (List.replicate n (0:ℝ)) := rfl
    rw [h, ih]; ring

/-- Auxiliary arithmetic fact used in the Cauchy-Schwarz induction step. -/
theorem two_mul_le_of_sq_le (X Y T : ℝ) (hx : 0 ≤ X) (hy : 0 ≤ Y)
    (ht : T ^ 2 ≤ X * Y) : 2 * T ≤ X + Y := by
  rcases le_or_lt T 0 with hT | hT
  · linarith
  · have h5 : (2 * T) ^ 2 ≤ (X + Y) ^ 2 := by nlinarith [sq_nonneg (X - Y)]
    have h6 : 0 ≤ X + Y := add_nonneg hx hy
    nlinarith [h5, h6]

/-- Cauchy-Schwarz for the list dot product, by induction on both lists. -/
theorem dotProd_sq_le (v w : List ℝ) :
    dotProd v w ^ 2 ≤ sumSquares v * sumSquares w := by
  induction v generalizing w with
  | nil =>
    have h : dotProd [] w = 0 := rfl
    have h2 : sumSquares ([] : List ℝ) = 0 := rfl
    rw [h, h2]
    simp [sumSquares_nonneg w]
  | cons a v ih =>
    cases w with
    | nil =>
      have h : dotProd (a :: v) [] = 0 := rfl
      have h2 : sumSquares ([] : List ℝ) = 0 := rfl
      rw [h, h2]
      simp
    | cons b w =>
      have h1 := sumSquares_nonneg v
      have h2 := sumSquares_nonneg w
      have hd := ih w
      have hsq : (a * b * dotProd v w) ^ 2 ≤
          (sumSquares v * (b * b)) * (sumSquares w * (a * a)) := by
        have hm := mul_le_mul_of_nonneg_right hd (sq_nonneg (a * b))
        nlinarith [hm]
      have h2T := two_mul_le_of_sq_le (sumSquares v * (b * b))
        (sumSquares w * (a * a)) (a * b * dotProd v w)
        (mul_nonneg h1 (mul_self_nonneg b)) (mul_nonneg h2 (mul_self_nonneg a)) hsq
      rw [dotProd_cons, sumSquares_cons, sumSquares_cons]
      nlinarith [h2T, hd]

theorem abs_dotProd_le (v w : List ℝ) :
    |dotProd v w| ≤ Real.sqrt (sumSquares v) * Real.sqrt (sumSquares w) := by
  have h := Real.sqrt_le_sqrt (dotProd_sq_le v w)
  rwa [Real.sqrt_sq_eq_abs,
    Real.sqrt_mul (sumSquares_nonneg v) (sumSquares w)] at h

/-! ## The four cosine-similarity implementations

EnhancedSearchService.cosineSimilarity (enhancedSearch.js lines 257-277):
a null/length guard returning 0, a zero-norm guard returning 0, else
dotProduct / (sqrt(normA) * sqrt(normB)).  The route helpers of the
messages router and the semantic-search router have the identical body
minus the null guard. -/

noncomputable def cosineSimilarityES (vecA vecB : List ℝ) : ℝ :=
  if vecA.length ≠ vecB.length then 0
  else if sumSquares vecA = 0 ∨ sumSquares vecB = 0 then 0
  else dotProd vecA vecB /
    (Real.sqrt (sumSquares vecA) * Real.sqrt (sumSquares vecB))

/-- The cosineSimilarity helper of the messages router: same guards and
formula as the enhanced-search implementation. -/
noncomputable def cosineSimilarityMsgRoute (vecA vecB : List ℝ) : ℝ :=
  if vecA.length ≠ vecB.length then 0
  else if sumSquares vecA = 0 ∨ sumSquares vecB = 0 then 0
  else dotProd vecA vecB /
    (Real.sqrt (sumSquares vecA) * Real.sqrt (sumSquares vecB))

/-- The cosineSimilarity helper of the semantic-search router: same
guards and formula again. -/
noncomputable def cosineSimilaritySemRoute (vecA vecB : List ℝ) : ℝ :=
  if vecA.length ≠ vecB.length then 0
  else if sumSquares vecA = 0 ∨ sumSquares vecB = 0 then 0
  else dotProd vecA vecB /
    (Real.sqrt (sumSquares vecA) * Real.sqrt (sumSquares vecB))

/-- LocalEmbeddingService.cosineSimilarity (localEmbeddings.js lines
124-147).  Unlike the other three implementations it THROWS on a length
mismatch; the JS magnitude check compares the square roots with zero. -/
noncomputable def cosineSimilarityLE (e1 e2 : List ℝ) : Except String ℝ :=
  if e1.length ≠ e2.length then
    .error "Embedding dimensions do not match"
  else if Real.sqrt (sumSquares e1) = 0 ∨ Real.sqrt (sumSquares e2) = 0 then
    .ok 0
  else
    .ok (dotProd e1 e2 /
      (Real.sqrt (sumSquares e1) * Real.sqrt (sumSquares e2)))

theorem cosES_of_ne {v w : List ℝ} (h : v.length ≠ w.length) :
    cosineSimilarityES v w = 0 := by
  unfold cosineSimilarityES
  rw [if_pos h]

theorem cosES_of_zero {v w : List ℝ} (h : v.length = w.length)
    (hz : sumSquares v = 0 ∨ sumSquares w = 0) :
    cosineSimilarityES v w = 0 := by
  unfold cosineSimilarityES
  rw [if_neg (fun hn => hn h), if_pos hz]

theorem cosES_formula {v w : List ℝ} (h : v.length = w.length)
    (hz : ¬(sumSquares v = 0 ∨ sumSquares w = 0)) :
    cosineSimilarityES v w = dotProd v w /
      (Real.sqrt (sumSquares v) * Real.sqrt (sumSquares w)) := by
  unfold cosineSimilarityES
  rw [if_neg (fun hn => hn h), if_neg hz]

theorem cosineSimilarityES_symm (v w : List ℝ) :
    cosineSimilarityES v w = cosineSimilarityES w v := by
  by_cases hl : v.length = w.length
  · by_cases hz : sumSquares v = 0 ∨ sumSquares w = 0
    · rw [cosES_of_zero hl hz, cosES_of_zero hl.symm hz.symm]
    · rw [cosES_formula hl hz, cosES_formula hl.symm (fun h => hz h.symm),
        dotProd_comm, mul_comm]
  · rw [cosES_of_ne hl, cosES_of_ne (fun h => hl h.symm)]

theorem cosineSimilarityES_bounds (v w : List ℝ) :
    -1 ≤ cosineSimilarityES v w ∧ cosineSimilarityES v w ≤ 1 := by
  by_cases hl : v.length = w.length
  · by_cases hz : sumSquares v = 0 ∨ sumSquares w = 0
    · rw [cosES_of_zero hl hz]
      norm_num
    · rw [cosES_formula hl hz]
      push_neg at hz
      have hv : 0 < sumSquares v :=
        lt_of_le_of_ne (sumSquares_nonneg v) (Ne.symm hz.1)
      have hw : 0 < sumSquares w :=
        lt_of_le_of_ne (sumSquares_nonneg w) (Ne.symm hz.2)
      have hpos : 0 < Real.sqrt (sumSquares v) * Real.sqrt (sumSquares w) :=
        mul_pos (Real.sqrt_pos.mpr hv) (Real.sqrt_pos.mpr hw)
      have h1 : |dotProd v w /
          (Real.sqrt (sumSquares v) * Real.sqrt (sumSquares w))| ≤ 1 := by
        rw [abs_div, abs_of_pos hpos]
        exact (div_le_one hpos).mpr (abs_dotProd_le v w)
      exact abs_le.mp h1
  · rw [cosES_of_ne hl]
    norm_num

theorem cosineSimilarityES_self {v : List ℝ} (h : sumSquares v ≠ 0) :
    cosineSimilarityES v v = 1 := by
  have hz : ¬(sumSquares v = 0 ∨ sumSquares v = 0) := by
    rintro (hc | hc) <;> exact h hc
  rw [cosES_formula rfl hz, dotProd_self,
    Real.mul_self_sqrt (sumSquares_nonneg v), div_self h]

theorem cosineSimilarityES_zero_right (v : List ℝ) (n : ℕ) :
    cosineSimilarityES v (List.replicate n 0) = 0 := by
  by_cases hl : v.length = (List.replicate n (0:ℝ)).length
  · exact cosES_of_zero hl (Or.inr (sumSquares_replicate_zero n))
  · exact cosES_of_ne hl

theorem cosineSimilarityLE_agrees (v w : List ℝ) (h : v.length = w.length) :
    cosineSimilarityLE v w = .ok (cosineSimilarityES v w) := by
  unfold cosineSimilarityLE
  have hv := sumSquares_nonneg v
  have hw := sumSquares_nonneg w
  by_cases hz : sumSquares v = 0 ∨ sumSquares w = 0
  · have hs : Real.sqrt (sumSquares v) = 0 ∨ Real.sqrt (sumSquares w) = 0 := by
      rcases hz with h0 | h0
      · exact Or.inl ((Real.sqrt_eq_zero hv).mpr h0)
      · exact Or.inr ((Real.sqrt_eq_zero hw).mpr h0)
    rw [if_neg (fun hn => hn h), if_pos hs, cosES_of_zero h hz]
  · push_neg at hz
    have hs : ¬(Real.sqrt (sumSquares v) = 0 ∨ Real.sqrt (sumSquares w) = 0) := by
      rintro (hc | hc)
      · exact hz.1 ((Real.sqrt_eq_zero hv).mp hc)
      · exact hz.2 ((Real.sqrt_eq_zero hw).mp hc)
    have hz2 : ¬(sumSquares v = 0 ∨ sumSquares w = 0) := by
      rintro (hc | hc)
      · exact hz.1 hc
      · exact hz.2 hc
    rw [if_neg (fun hn => hn h), if_neg hs, cosES_formula h hz2]

/-- C4: the claim states that EVERY cosine-similarity implementation
reachable from the search paths yields 0 on unequal lengths instead of
raising.  LocalEmbeddingService.cosineSimilarity, which is reached from
SemanticSearchService.searchMessages, instead throws an exception on a
length mismatch, as this concrete pair of vectors shows. -/
theorem claim_C4_counterexample :
    cosineSimilarityLE [(1:ℝ)] [1, 2] =
      Except.error "Embedding dimensions do not match" ∧
    (Except.error "Embedding dimensions do not match" ≠
      (Except.ok (0:ℝ) : Except String ℝ)) := by
  constructor
  · unfold cosineSimilarityLE
    rw [if_pos (by norm_num)]
  · intro h
    exact Except.noConfusion h

/-- C4 (amended): on a length mismatch the cosine-similarity
implementations of EnhancedSearchService and of the two routers yield 0,
but LocalEmbeddingService.cosineSimilarity, also reachable from the
search paths, raises an exception instead. -/
theorem claim_C4_amended (v w : List ℝ) (h : v.length ≠ w.length) :
    cosineSimilarityES v w = 0 ∧
    cosineSimilarityMsgRoute v w = 0 ∧
    cosineSimilaritySemRoute v w = 0 ∧
    cosineSimilarityLE v w = .error "Embedding dimensions do not match" := by
  refine ⟨cosES_of_ne h, ?_, ?_, ?_⟩
  · unfold cosineSimilarityMsgRoute
    rw [if_pos h]
  · unfold cosineSimilaritySemRoute
    rw [if_pos h]
  · unfold cosineSimilarityLE
    rw [if_pos h]

/-- Witness for claim_C4_amended at the concrete mismatched pair. -/
theorem claim_C4_amended_witness :
    cosineSimilarityES [(1:ℝ)] [1, 2] = 0 ∧
    cosineSimilarityMsgRoute [(1:ℝ)] [1, 2] = 0 ∧
    cosineSimilaritySemRoute [(1:ℝ)] [1, 2] = 0 ∧
    cosineSimilarityLE [(1:ℝ)] [1, 2] =
      .error "Embedding dimensions do not match" :=
  claim_C4_amended [(1:ℝ)] [1, 2] (by norm_num)

/-- C8: for equal-length real vectors, cosine similarity (the
enhanced-search implementation, shared verbatim by the router helpers)
is symmetric and bounded in the interval from -1 to 1; the similarity of
a vector of non-zero norm with itself is exactly 1 in this real-number
model; similarity against an all-zero vector is 0; and on equal lengths
the LocalEmbeddingService implementation returns the same value without
raising. -/
theorem claim_C8 (v w : List ℝ) (h : v.length = w.length) :
    cosineSimilarityES v w = cosineSimilarityES w v ∧
    (-1 ≤ cosineSimilarityES v w ∧ cosineSimilarityES v w ≤ 1) ∧
    (sumSquares v ≠ 0 → cosineSimilarityES v v = 1) ∧
    (∀ n, cosineSimilarityES v (List.replicate n 0) = 0) ∧
    cosineSimilarityLE v w = .ok (cosineSimilarityES v w) :=
  ⟨cosineSimilarityES_symm v w, cosineSimilarityES_bounds v w,
    fun hz => cosineSimilarityES_self hz,
    fun n => cosineSimilarityES_zero_right v n,
    cosineSimilarityLE_agrees v w h⟩

/-- Witness for claim_C8 at a concrete equal-length pair. -/
theorem claim_C8_witness :
    cosineSimilarityES [(1:ℝ), 0] [0, 1] = cosineSimilarityES [0, 1] [(1:ℝ), 0] ∧
    (-1 ≤ cosineSimilarityES [(1:ℝ), 0] [0, 1] ∧
      cosineSimilarityES [(1:ℝ), 0] [0, 1] ≤ 1) ∧
    (sumSquares [(1:ℝ), 0] ≠ 0 → cosineSimilarityES [(1:ℝ), 0] [(1:ℝ), 0] = 1) ∧
    (∀ n, cosineSimilarityES [(1:ℝ), 0] (List.replicate n 0) = 0) ∧
    cosineSimilarityLE [(1:ℝ), 0] [0, 1] =
      .ok (cosineSimilarityES [(1:ℝ), 0] [0, 1]) :=
  claim_C8 [(1:ℝ), 0] [0, 1] (by norm_num)

/-! ## EmbeddingService (embeddings.js)

The deterministic legacy local embedding
(EmbeddingService.generateLegacyLocalEmbedding, lines 197-341) is
transcribed in full.  The random draws used only in its zero-norm edge
case are passed in as an oracle function from slot index to the value of
the corresponding Math.random() call. -/

/-- JS regex class backslash-w: ASCII letters, digits and underscore. -/
def isWordChar (c : Char) : Bool := c.isAlphanum || c = '_'

/-- words = text.toLowerCase().replace(nonword-nonspace, space)
.split(whitespace).filter(nonempty). -/
def tokenize (text : String) : List String :=
  ((String.mk (text.toLower.toList.map
      (fun c => if isWordChar c || c.isWhitespace then c else ' '))).split
    (fun c => c.isWhitespace)).filter (fun w => w.length > 0)

/-- The semanticGroups object literal, in insertion order (the order
Object.entries enumerates): greetings, farewells, gratitude, politeness,
questions, answers, uncertainty, positive, negative, neutral,
communication, help, work, time, frequency, tech, food, weather,
location, quantity, intensity, personal, possessive. -/
def semanticGroups : List (List String) := [
  ["hello", "hi", "hey", "greetings", "good", "morning", "evening", "afternoon", "welcome"],
  ["bye", "goodbye", "farewell", "see", "later", "ciao", "adios", "until", "take", "care"],
  ["thanks", "thank", "grateful", "appreciate", "cheers", "kudos", "credit"],
  ["please", "sorry", "excuse", "pardon", "apologize", "forgive"],
  ["what", "how", "when", "where", "why", "who", "which", "can", "could", "would", "should", "will", "do", "does", "did"],
  ["yes", "no", "maybe", "perhaps", "definitely", "absolutely", "sure", "certainly", "probably"],
  ["maybe", "perhaps", "might", "possibly", "unsure", "think", "guess", "suppose"],
  ["happy", "excited", "love", "like", "enjoy", "wonderful", "great", "awesome", "fantastic", "amazing"],
  ["sad", "angry", "hate", "dislike", "terrible", "awful", "bad", "horrible", "disappointed"],
  ["okay", "fine", "alright", "normal", "regular", "usual", "standard"],
  ["chat", "message", "talk", "speak", "say", "tell", "ask", "answer", "reply", "respond", "discuss"],
  ["help", "assist", "support", "guide", "advice", "suggest", "recommend", "tip", "hint"],
  ["work", "job", "project", "task", "meeting", "deadline", "business", "office", "colleague"],
  ["today", "tomorrow", "yesterday", "now", "later", "soon", "time", "date", "schedule", "when"],
  ["always", "never", "sometimes", "often", "rarely", "usually", "frequently", "occasionally"],
  ["code", "programming", "computer", "software", "app", "website", "tech", "digital", "online", "internet"],
  ["eat", "food", "lunch", "dinner", "breakfast", "hungry", "restaurant", "cooking", "meal"],
  ["weather", "rain", "sunny", "cloudy", "hot", "cold", "temperature", "warm", "cool"],
  ["here", "there", "home", "office", "place", "location", "address", "city", "country"],
  ["one", "two", "three", "many", "few", "some", "all", "none", "several", "multiple"],
  ["very", "really", "quite", "rather", "extremely", "totally", "completely", "absolutely"],
  ["i", "you", "he", "she", "we", "they", "me", "us", "him", "her", "them"],
  ["my", "your", "his", "her", "our", "their", "mine", "yours", "ours", "theirs"]]

/-- JS String.prototype.includes: substring containment. -/
def strIncludes (hay needle : String) : Bool :=
  (List.range (hay.toList.length + 1)).any
    (fun i => needle.toList.isPrefixOf (hay.toList.drop i))

/-- Per-group score: +1 for exact membership of a word and +0.5 for
every group word related to it by substring containment either way. -/
def groupScore (words : List String) (groupWords : List String) : ℝ :=
  (words.map (fun word =>
    (if groupWords.contains word then (1:ℝ) else 0) +
    ((groupWords.map (fun gw =>
      if strIncludes word gw || strIncludes gw word then (0.5:ℝ) else 0)).sum))).sum

/-- embedding[i] += x, with i already reduced mod 1536 by the callers. -/
def addAt (v : List ℝ) (i : ℕ) (x : ℝ) : List ℝ := v.set i (v.getD i 0 + x)

/-- One semanticGroups entry: primary slot gets groupWeight*2, slots at
distance i in both directions get groupWeight*(1 - i*0.15) for i=1..5. -/
noncomputable def applyGroup (words : List String) (emb : List ℝ)
    (groupIndex : ℕ) (groupWords : List String) : List ℝ :=
  let score := groupScore words groupWords
  if 0 < score then
    let baseIndex := (groupIndex * 12) % 1536
    let groupWeight := min (score / (words.length : ℝ) * 3) 1
    let e1 := addAt emb baseIndex (groupWeight * 2)
    (List.range 5).foldl (fun e k =>
      let i := k + 1
      let e2 := addAt e ((baseIndex + i) % 1536)
        (groupWeight * (1 - (i : ℝ) * 0.15))
      addAt e2 ((baseIndex + 1536 - i) % 1536)
        (groupWeight * (1 - (i : ℝ) * 0.15))) e1
  else emb

/-- Sum of UTF-16 code units of a (lower-cased, hence BMP-safe) word,
modelling charCodeAt sums. -/
def charSum (word : String) : ℕ := (word.toList.map Char.toNat).sum

/-- Word-level features: three character-hash slots, a position slot and
a length slot per word. -/
noncomputable def applyWordFeatures (words : List String)
    (emb0 : List ℝ) : List ℝ :=
  words.enum.foldl (fun e (p : ℕ × String) =>
    let wordIndex : ℕ := p.1
    let word : String := p.2
    let cs := charSum word
    let wordWeight : ℝ := 1 / Real.sqrt (words.length : ℝ)
    let e1 := addAt e (cs % 1536) (wordWeight * 0.3)
    let e2 := addAt e1 ((cs * 17) % 1536) (wordWeight * 0.2)
    let e3 := addAt e2 ((cs * 31) % 1536) (wordWeight * 0.1)
    let positionWeight : ℝ := 1 / (1 + (wordIndex : ℝ))
    let e4 := addAt e3 ((wordIndex * 7) % 1536) (positionWeight * 0.2)
    addAt e4 ((word.length * 23) % 1536) (wordWeight * 0.1)) emb0

/-- Text-level features.  When there are no words, avgWordLength is NaN
in JS and indexing the array by NaN touches no numeric slot, so that one
update is skipped in that case. -/
noncomputable def applyTextFeatures (text : String) (words : List String)
    (emb0 : List ℝ) : List ℝ :=
  let e1 := addAt emb0 (text.length % 1536) 0.05
  let e2 := addAt e1 ((words.length * 19) % 1536) 0.05
  let e3 :=
    if words.length = 0 then e2
    else
      let avgWordLength : ℝ :=
        ((words.map String.length).sum : ℝ) / (words.length : ℝ)
      addAt e2 (⌊avgWordLength * 41⌋.toNat % 1536) 0.05
  let questionWords := (words.filter (fun w =>
    ["what", "how", "when", "where", "why", "who", "which"].contains w)).length
  let e4 := addAt e3 350 ((questionWords : ℝ) * 0.3)
  let e5 := addAt e4 360 ((if text.toList.contains '!' then (1:ℝ) else 0) * 0.3)
  addAt e5 370 ((if text.toList.contains '?' then (1:ℝ) else 0) * 0.3)

/-- The raw 1536-slot accumulator before L2 normalization. -/
noncomputable def buildLegacyRaw (text : String) : List ℝ :=
  let words := tokenize text
  let emb0 := List.replicate 1536 (0:ℝ)
  let emb1 := semanticGroups.enum.foldl
    (fun e p => applyGroup words e p.1 p.2) emb0
  let emb2 := applyWordFeatures words emb1
  applyTextFeatures text words emb2

/-- EmbeddingService.generateLegacyLocalEmbedding: build the raw vector,
L2-normalize it when its magnitude is positive, otherwise normalize a
vector of 1536 draws of Math.random() - 0.5 (the rand oracle). -/
noncomputable def generateLegacyLocalEmbedding (text : String)
    (rand : ℕ → ℝ) : List ℝ :=
  let emb := buildLegacyRaw text
  let magnitude := Real.sqrt (sumSquares emb)
  if 0 < magnitude then emb.map (fun x => x / magnitude)
  else
    let randomEmbedding := (List.range 1536).map (fun i => rand i - 0.5)
    let randomMagnitude := Real.sqrt (sumSquares randomEmbedding)
    randomEmbedding.map (fun x => x / randomMagnitude)

/-- Math.max(-1, Math.min(1, num)) in generateClaudeEmbedding. -/
noncomputable def clampUnit (x : ℝ) : ℝ := max (-1) (min 1 x)

/-- EmbeddingService.generateClaudeEmbedding (lines 100-181), modelled at
the level of the numeric tokens the regex extracts from the HTTP response
text; none models a failed request.  With at least 20 numbers the first
20 are clamped to the range -1..1 and padded with zeros to 1536 entries;
otherwise the function throws.  No L2 normalization is applied. -/
noncomputable def generateClaudeEmbedding (resp : Option (List ℝ)) :
    Except String (List ℝ) :=
  match resp with
  | none => .error "Claude API request failed"
  | some numbers =>
      if 20 ≤ numbers.length then
        let e := (numbers.take 20).map clampUnit
        .ok ((e ++ List.replicate (1536 - e.length) 0).take 1536)
      else .error "Invalid Claude response format"

/-- EmbeddingService.generateOpenAIEmbedding (lines 70-99): returns the
embedding field of the response verbatim, with no shape validation; none
models a failed request. -/
def generateOpenAIEmbedding (resp : Option (List ℝ)) :
    Except String (List ℝ) :=
  match resp with
  | none => .error "OpenAI API request failed"
  | some embedding => .ok embedding

/-- The provider a given attempt went to. -/
inductive Provider where
  | claude
  | openai
  | legacy
deriving DecidableEq

/-- The process environment and external-call outcomes seen by one
generateEmbedding invocation: which API keys the constructor saw, the
parsed numbers of the first and second Claude call (the fallback retry
issues a fresh request), the OpenAI response vector, and the Math.random
oracle for the legacy zero-norm edge case. -/
structure EmbedEnv where
  claudeKey : Bool
  openaiKey : Bool
  claudeResp1 : Option (List ℝ)
  claudeResp2 : Option (List ℝ)
  openaiResp : Option (List ℝ)
  rand : ℕ → ℝ

/-- this.useClaude = !!claudeApiKey. -/
def useClaude (env : EmbedEnv) : Bool := env.claudeKey

/-- this.useOpenAI = !!openaiApiKey && !useClaude && key not placeholder;
key presence and non-placeholder are folded into openaiKey. -/
def useOpenAI (env : EmbedEnv) : Bool := env.openaiKey && !env.claudeKey

/-- EmbeddingService.generateEmbedding (lines 29-64) together with the
list of providers attempted, in order.  The outer try picks exactly one
primary provider; the catch retries Claude when useClaude is set (and
useOpenAI, which the constructor makes false whenever useClaude holds,
is not), otherwise runs the legacy fallback; the inner catch returns the
1536-dimensional zero vector. -/
noncomputable def generateEmbeddingT (env : EmbedEnv) (text : String) :
    Except String (List ℝ) × List Provider :=
  let primary : Except String (List ℝ) × List Provider :=
    if useClaude env then (generateClaudeEmbedding env.claudeResp1, [.claude])
    else if useOpenAI env then (generateOpenAIEmbedding env.openaiResp, [.openai])
    else (.ok (generateLegacyLocalEmbedding text env.rand), [.legacy])
  match primary with
  | (.ok v, tr) => (.ok v, tr)
  | (.error _, tr) =>
      let fallback : Except String (List ℝ) × List Provider :=
        if useClaude env && !useOpenAI env then
          (generateClaudeEmbedding env.claudeResp2, [.claude])
        else (.ok (generateLegacyLocalEmbedding text env.rand), [.legacy])
      match fallback with
      | (.ok v, tr2) => (.ok v, tr ++ tr2)
      | (.error _, tr2) => (.ok (List.replicate 1536 0), tr ++ tr2)

/-- The value generateEmbedding resolves with. -/
noncomputable def generateEmbedding (env : EmbedEnv) (text : String) :
    Except String (List ℝ) :=
  (generateEmbeddingT env text).1

/-- EmbeddingService.getEmbeddingDimension (lines 347-349). -/
def getEmbeddingDimension : ℕ := 1536

/-- Every provider the chain consults fails.  The legacy fallback cannot
fail, and it is consulted unless the Claude key is configured, in which
case the chain attempts Claude twice and nothing else; so this is the
only situation in which every consulted provider fails. -/
def allProvidersFail (env : EmbedEnv) : Prop :=
  env.claudeKey = true ∧
  (∃ e, generateClaudeEmbedding env.claudeResp1 = .error e) ∧
  (∃ e, generateClaudeEmbedding env.claudeResp2 = .error e)

/-! ## Length and normalization facts about the embedding chain -/

theorem addAt_length (v : List ℝ) (i : ℕ) (x : ℝ) :
    (addAt v i x).length = v.length := by
  simp [addAt]

theorem foldl_length_inv {α : Type} (f : List ℝ → α → List ℝ)
    (h : ∀ e x, (f e x).length = e.length) (l : List α) (e : List ℝ) :
    (l.foldl f e).length = e.length := by
  induction l generalizing e with
  | nil => rfl
  | cons a l ih => rw [List.foldl_cons, ih (f e a), h e a]

theorem applyGroup_length (words : List String) (emb : List ℝ)
    (gi : ℕ) (gw : List String) :
    (applyGroup words emb gi gw).length = emb.length := by
  unfold applyGroup
  by_cases hs : 0 < groupScore words gw
  · rw [if_pos hs]
    rw [foldl_length_inv _ (fun e x => by simp [addAt_length]) _ _]
    exact addAt_length _ _ _
  · rw [if_neg hs]

theorem applyWordFeatures_length (words : List String) (emb : List ℝ) :
    (applyWordFeatures words emb).length = emb.length := by
  unfold applyWordFeatures
  exact foldl_length_inv _ (fun e x => by simp [addAt_length]) _ _

theorem applyTextFeatures_length (text : String) (words : List String)
    (emb : List ℝ) :
    (applyTextFeatures text words emb).length = emb.length := by
  by_cases hw : words.length = 0
  · simp only [applyTextFeatures, if_pos hw, addAt_length]
  · simp only [applyTextFeatures, if_neg hw, addAt_length]

theorem buildLegacyRaw_length (text : String) :
    (buildLegacyRaw text).length = 1536 := by
  show (applyTextFeatures text (tokenize text)
    (applyWordFeatures (tokenize text)
      (semanticGroups.enum.foldl
        (fun e p => applyGroup (tokenize text) e p.1 p.2)
        (List.replicate 1536 (0:ℝ))))).length = 1536
  rw [applyTextFeatures_length, applyWordFeatures_length,
    foldl_length_inv _ (fun e p => applyGroup_length _ _ _ _) _ _,
    List.length_replicate]

theorem generateLegacyLocalEmbedding_length (text : String) (rand : ℕ → ℝ) :
    (generateLegacyLocalEmbedding text rand).length = 1536 := by
  unfold generateLegacyLocalEmbedding
  by_cases hm : 0 < Real.sqrt (sumSquares (buildLegacyRaw text))
  · simp [hm, buildLegacyRaw_length]
  · simp [hm]

theorem sumSquares_map_div (v : List ℝ) (c : ℝ) :
    sumSquares (v.map (fun x => x / c)) = sumSquares v / (c * c) := by
  induction v with
  | nil =>
    show (0:ℝ) = 0 / (c * c)
    rw [zero_div]
  | cons a v ih =>
    show a / c * (a / c) + sumSquares (v.map (fun x => x / c)) =
      (a * a + sumSquares v) / (c * c)
    rw [ih, div_mul_div_comm, div_add_div_same]

theorem map_div_sqrt_unit_or_zero (v : List ℝ) :
    sumSquares (v.map (fun x => x / Real.sqrt (sumSquares v))) = 1 ∨
    v.map (fun x => x / Real.sqrt (sumSquares v)) =
      List.replicate v.length 0 := by
  by_cases hs : sumSquares v = 0
  · right
    have hz : Real.sqrt (sumSquares v) = 0 := by
      rw [hs, Real.sqrt_zero]
    rw [List.eq_replicate_iff]
    refine ⟨by simp, ?_⟩
    intro b hb
    rcases List.mem_map.mp hb with ⟨x, _, hx⟩
    rw [← hx, hz, div_zero]
  · left
    rw [sumSquares_map_div, Real.mul_self_sqrt (sumSquares_nonneg v),
      div_self hs]

theorem legacyEmbedding_unit_or_zero (text : String) (rand : ℕ → ℝ) :
    sumSquares (generateLegacyLocalEmbedding text rand) = 1 ∨
    generateLegacyLocalEmbedding text rand = List.replicate 1536 0 := by
  unfold generateLegacyLocalEmbedding
  by_cases hm : 0 < Real.sqrt (sumSquares (buildLegacyRaw text))
  · simp only [if_pos hm]
    rcases map_div_sqrt_unit_or_zero (buildLegacyRaw text) with h | h
    · exact Or.inl h
    · right
      rw [h, buildLegacyRaw_length]
  · simp only [if_neg hm]
    rcases map_div_sqrt_unit_or_zero
        ((List.range 1536).map (fun i => rand i - 0.5)) with h | h
    · exact Or.inl h
    · right
      rw [h]
      simp

theorem generateClaudeEmbedding_length {resp : Option (List ℝ)}
    {v : List ℝ} (h : generateClaudeEmbedding resp = .ok v) :
    v.length = 1536 := by
  cases resp with
  | none => simp [generateClaudeEmbedding] at h
  | some numbers =>
    simp only [generateClaudeEmbedding] at h
    by_cases h20 : 20 ≤ numbers.length
    · rw [if_pos h20] at h
      have hv := Except.ok.inj h
      rw [← hv]
      simp [List.length_take, List.length_append, List.length_map]
    · rw [if_neg h20] at h
      exact Except.noConfusion h

/-! ## Flattened behaviour of the generateEmbedding provider chain -/

theorem genT_claude_ok {env : EmbedEnv} {v : List ℝ} (text : String)
    (hk : env.claudeKey = true)
    (h : generateClaudeEmbedding env.claudeResp1 = .ok v) :
    generateEmbeddingT env text = (.ok v, [.claude]) := by
  unfold generateEmbeddingT
  simp [useClaude, hk, h]

theorem genT_claude_retry_ok {env : EmbedEnv} {e : String} {v : List ℝ}
    (text : String) (hk : env.claudeKey = true)
    (h1 : generateClaudeEmbedding env.claudeResp1 = .error e)
    (h2 : generateClaudeEmbedding env.claudeResp2 = .ok v) :
    generateEmbeddingT env text = (.ok v, [.claude, .claude]) := by
  unfold generateEmbeddingT
  simp [useClaude, useOpenAI, hk, h1, h2]

theorem genT_claude_zero {env : EmbedEnv} {e1 e2 : String} (text : String)
    (hk : env.claudeKey = true)
    (h1 : generateClaudeEmbedding env.claudeResp1 = .error e1)
    (h2 : generateClaudeEmbedding env.claudeResp2 = .error e2) :
    generateEmbeddingT env text =
      (.ok (List.replicate 1536 0), [.claude, .claude]) := by
  unfold generateEmbeddingT
  simp [useClaude, useOpenAI, hk, h1, h2]

theorem genT_openai_ok {env : EmbedEnv} {v : List ℝ} (text : String)
    (hk : env.claudeKey = false) (ho : env.openaiKey = true)
    (h : env.openaiResp = some v) :
    generateEmbeddingT env text = (.ok v, [.openai]) := by
  unfold generateEmbeddingT
  simp [useClaude, useOpenAI, hk, ho, h, generateOpenAIEmbedding]

theorem genT_openai_err {env : EmbedEnv} (text : String)
    (hk : env.claudeKey = false) (ho : env.openaiKey = true)
    (h : env.openaiResp = none) :
    generateEmbeddingT env text =
      (.ok (generateLegacyLocalEmbedding text env.rand),
        [.openai, .legacy]) := by
  unfold generateEmbeddingT
  simp [useClaude, useOpenAI, hk, ho, h, generateOpenAIEmbedding]

theorem genT_legacy {env : EmbedEnv} (text : String)
    (hk : env.claudeKey = false) (ho : env.openaiKey = false) :
    generateEmbeddingT env text =
      (.ok (generateLegacyLocalEmbedding text env.rand), [.legacy]) := by
  unfold generateEmbeddingT
  simp [useClaude, useOpenAI, hk, ho]

/-- C1: generateEmbedding resolves for every input (never throws); under
the assumption that a successful OpenAI response carries a vector of the
advertised 1536 dimensions (the code applies no shape check of its own on
that path), the resolved vector always has the configured dimension
reported by getEmbeddingDimension, and when every consulted provider
fails it is the explicit all-zero vector of that dimension. -/
theorem claim_C1 (env : EmbedEnv) (text : String)
    (hwf : ∀ v, env.openaiResp = some v → v.length = 1536) :
    ∃ vec, generateEmbedding env text = .ok vec ∧
      vec.length = getEmbeddingDimension ∧
      (allProvidersFail env → vec = List.replicate getEmbeddingDimension 0) := by
  cases hk : env.claudeKey with
  | true =>
    cases h1 : generateClaudeEmbedding env.claudeResp1 with
    | ok v1 =>
      refine ⟨v1, ?_, generateClaudeEmbedding_length h1, ?_⟩
      · unfold generateEmbedding
        rw [genT_claude_ok text hk h1]
      · intro hf
        rcases hf.2.1 with ⟨e, he⟩
        rw [h1] at he
        exact Except.noConfusion he
    | error e1 =>
      cases h2 : generateClaudeEmbedding env.claudeResp2 with
      | ok v2 =>
        refine ⟨v2, ?_, generateClaudeEmbedding_length h2, ?_⟩
        · unfold generateEmbedding
          rw [genT_claude_retry_ok text hk h1 h2]
        · intro hf
          rcases hf.2.2 with ⟨e, he⟩
          rw [h2] at he
          exact Except.noConfusion he
      | error e2 =>
        refine ⟨List.replicate 1536 0, ?_,
          by rw [List.length_replicate]; rfl, fun _ => rfl⟩
        unfold generateEmbedding
        rw [genT_claude_zero text hk h1 h2]
  | false =>
    cases ho : env.openaiKey with
    | true =>
      cases hr : env.openaiResp with
      | some v =>
        refine ⟨v, ?_, hwf v hr, ?_⟩
        · unfold generateEmbedding
          rw [genT_openai_ok text hk ho hr]
        · intro hf
          rw [hf.1] at hk
          exact Bool.noConfusion hk
      | none =>
        refine ⟨_, ?_, generateLegacyLocalEmbedding_length text env.rand, ?_⟩
        · unfold generateEmbedding
          rw [genT_openai_err text hk ho hr]
        · intro hf
          rw [hf.1] at hk
          exact Bool.noConfusion hk
    | false =>
      refine ⟨_, ?_, generateLegacyLocalEmbedding_length text env.rand, ?_⟩
      · unfold generateEmbedding
        rw [genT_legacy text hk ho]
      · intro hf
        rw [hf.1] at hk
        exact Bool.noConfusion hk

/-- Environment for the claim_C1 witness: Claude key configured, both
Claude requests failing, no OpenAI key. -/
def envC1 : EmbedEnv := ⟨true, false, none, none, none, fun _ => 0⟩

/-- Witness for claim_C1: in the all-fail environment the function
resolves with the zero vector of the configured dimension. -/
theorem claim_C1_witness :
    generateEmbedding envC1 "hi" =
      .ok (List.replicate getEmbeddingDimension 0) := by
  obtain ⟨vec, hok, hlen, hzero⟩ :=
    claim_C1 envC1 "hi" (fun v hv => by simp [envC1] at hv)
  have hfail : allProvidersFail envC1 :=
    ⟨rfl, ⟨"Claude API request failed", rfl⟩,
      ⟨"Claude API request failed", rfl⟩⟩
  rw [hok, hzero hfail]

/-- Environment for the C2 counterexample: only the Claude key is
configured and both Claude requests fail. -/
def envC2 : EmbedEnv := ⟨true, false, none, none, none, fun _ => 0⟩

/-- C2 counterexample: the claim says any error advances to the NEXT
provider in the fixed order remote A, remote B, local model, local
deterministic fallback, so after provider A errors the chain would reach
the always-well-formed deterministic fallback.  In the code the two
attempts are both provider A (Claude), no other provider is consulted,
and the call resolves with the zero vector. -/
theorem claim_C2_counterexample :
    (generateEmbeddingT envC2 "hi").2 = [Provider.claude, Provider.claude] ∧
    Provider.legacy ∉ (generateEmbeddingT envC2 "hi").2 ∧
    Provider.openai ∉ (generateEmbeddingT envC2 "hi").2 ∧
    (generateEmbeddingT envC2 "hi").1 = .ok (List.replicate 1536 0) := by
  have h := @genT_claude_zero envC2 "Claude API request failed"
    "Claude API request failed" "hi" rfl rfl rfl
  refine ⟨by rw [h], by rw [h]; decide, by rw [h]; decide, by rw [h]⟩

/-- C2 (amended): generateEmbedding picks a single primary provider -
Claude when its key is configured, else OpenAI when its key is
configured, else the deterministic legacy fallback.  On a primary error
the one fallback attempt is Claude AGAIN when the Claude key is
configured (OpenAI and the legacy fallback are never consulted in that
configuration), and the legacy fallback otherwise; if the fallback also
errors the call resolves with the zero vector.  A successful OpenAI
response wins with no shape validation, and the locally-hosted
transformer model is not part of this chain at all. -/
theorem claim_C2_amended (env : EmbedEnv) (text : String) :
    (env.claudeKey = true →
      ((generateEmbeddingT env text).2 = [Provider.claude] ∨
        (generateEmbeddingT env text).2 = [Provider.claude, Provider.claude]) ∧
      Provider.legacy ∉ (generateEmbeddingT env text).2 ∧
      Provider.openai ∉ (generateEmbeddingT env text).2) ∧
    (env.claudeKey = true →
      ∀ e1 e2, generateClaudeEmbedding env.claudeResp1 = .error e1 →
        generateClaudeEmbedding env.claudeResp2 = .error e2 →
        generateEmbedding env text = .ok (List.replicate 1536 0)) ∧
    (env.claudeKey = false → env.openaiKey = true →
      (∀ v, env.openaiResp = some v →
        generateEmbedding env text = .ok v ∧
        (generateEmbeddingT env text).2 = [Provider.openai]) ∧
      (env.openaiResp = none →
        generateEmbedding env text =
          .ok (generateLegacyLocalEmbedding text env.rand) ∧
        (generateEmbeddingT env text).2 = [Provider.openai, Provider.legacy])) ∧
    (env.claudeKey = false → env.openaiKey = false →
      generateEmbedding env text =
        .ok (generateLegacyLocalEmbedding text env.rand) ∧
      (generateEmbeddingT env text).2 = [Provider.legacy]) := by
  refine ⟨?_, ?_, ?_, ?_⟩
  · intro hk
    cases h1 : generateClaudeEmbedding env.claudeResp1 with
    | ok v1 =>
      rw [genT_claude_ok text hk h1]
      exact ⟨Or.inl rfl, by simp, by simp⟩
    | error e1 =>
      cases h2 : generateClaudeEmbedding env.claudeResp2 with
      | ok v2 =>
        rw [genT_claude_retry_ok text hk h1 h2]
        exact ⟨Or.inr rfl, by simp, by simp⟩
      | error e2 =>
        rw [genT_claude_zero text hk h1 h2]
        exact ⟨Or.inr rfl, by simp, by simp⟩
  · intro hk e1 e2 h1 h2
    unfold generateEmbedding
    rw [genT_claude_zero text hk h1 h2]
  · intro hk ho
    constructor
    · intro v hv
      refine ⟨?_, ?_⟩
      · unfold generateEmbedding
        rw [genT_openai_ok text hk ho hv]
      · rw [genT_openai_ok text hk ho hv]
    · intro hv
      refine ⟨?_, ?_⟩
      · unfold generateEmbedding
        rw [genT_openai_err text hk ho hv]
      · rw [genT_openai_err text hk ho hv]
  · intro hk ho
    refine ⟨?_, ?_⟩
    · unfold generateEmbedding
      rw [genT_legacy text hk ho]
    · rw [genT_legacy text hk ho]

/-- Witness for claim_C2_amended at the concrete Claude-only failing
environment: provider order of the actual chain. -/
theorem claim_C2_amended_witness :
    Provider.legacy ∉ (generateEmbeddingT envC2 "hi").2 :=
  ((claim_C2_amended envC2 "hi").1 rfl).2.1

/-- The 20 numbers extracted from a Claude response of the form 1, 1
followed by eighteen zeros. -/
noncomputable def claudeNums20 : List ℝ := 1 :: 1 :: List.replicate 18 0

/-- The vector the Claude path builds from those numbers. -/
noncomputable def claudeVecC3 : List ℝ := 1 :: 1 :: List.replicate 1534 0

/-- C3 counterexample: the Claude provider path accepts a response whose
extracted numbers are 1, 1, 0, ..., 0, pads it with zeros to 1536
entries and applies NO L2 normalization, returning a non-zero vector
whose L2 norm is the square root of 2, not 1.  This refutes the claim
that every vector produced for cosine-similarity use is unit-norm or the
zero sentinel. -/
theorem claim_C3_counterexample :
    generateClaudeEmbedding (some claudeNums20) = .ok claudeVecC3 ∧
    Real.sqrt (sumSquares claudeVecC3) ≠ 1 ∧
    claudeVecC3 ≠ List.replicate 1536 0 := by
  have hsum : sumSquares claudeVecC3 = 2 := by
    show (1:ℝ) * 1 + ((1:ℝ) * 1 + sumSquares (List.replicate 1534 0)) = 2
    rw [sumSquares_replicate_zero]
    norm_num
  refine ⟨?_, ?_, ?_⟩
  · have hcl1 : clampUnit 1 = 1 := by
      unfold clampUnit
      rw [min_self]
      exact max_eq_right (by norm_num)
    have hcl0 : clampUnit 0 = 0 := by
      unfold clampUnit
      rw [min_eq_right (by norm_num : (0:ℝ) ≤ 1),
        max_eq_right (by norm_num : (-1:ℝ) ≤ 0)]
    have hlen : (20:ℕ) ≤ claudeNums20.length := by simp [claudeNums20]
    have htake : claudeNums20.take 20 = claudeNums20 :=
      List.take_of_length_le (by simp [claudeNums20])
    have hmap : claudeNums20.map clampUnit = claudeNums20 := by
      show clampUnit 1 :: clampUnit 1 :: (List.replicate 18 (0:ℝ)).map clampUnit =
        (1:ℝ) :: 1 :: List.replicate 18 0
      rw [List.map_replicate, hcl1, hcl0]
    have hlen2 : claudeNums20.length = 20 := by simp [claudeNums20]
    have hlen3 : claudeVecC3.length = 1536 := by
      show ((1:ℝ) :: 1 :: List.replicate 1534 0).length = 1536
      rw [List.length_cons, List.length_cons, List.length_replicate]
    have happ : claudeNums20 ++ List.replicate (1536 - 20) (0:ℝ) = claudeVecC3 := by
      show (1:ℝ) :: 1 :: (List.replicate 18 0 ++ List.replicate 1516 0) = claudeVecC3
      rw [← List.replicate_add]
      rfl
    simp only [generateClaudeEmbedding, htake, hmap, hlen2]
    rw [if_pos (le_refl 20), happ, List.take_of_length_le (le_of_eq hlen3)]
  · intro h
    have h2 : Real.sqrt (sumSquares claudeVecC3) ^ 2 = sumSquares claudeVecC3 :=
      Real.sq_sqrt (by rw [hsum]; norm_num)
    rw [h, hsum] at h2
    norm_num at h2
  · intro h
    have h0 : claudeVecC3.headD 0 = (List.replicate 1536 (0:ℝ)).headD 0 := by
      rw [h]
    have h1 : claudeVecC3.headD 0 = 1 := rfl
    have h2 : (List.replicate 1536 (0:ℝ)).headD 0 = 0 := rfl
    rw [h1, h2] at h0
    exact one_ne_zero h0

/-- C3 (amended): only the deterministic legacy fallback path
L2-normalizes.  Its output is always either of unit L2 norm (sum of
squares exactly 1) or the all-zero vector; the remote provider paths
give no such guarantee (the Claude path can return non-zero vectors of
non-unit norm, and the OpenAI path returns the response verbatim). -/
theorem claim_C3_amended (text : String) (rand : ℕ → ℝ) :
    sumSquares (generateLegacyLocalEmbedding text rand) = 1 ∨
    generateLegacyLocalEmbedding text rand = List.replicate 1536 0 :=
  legacyEmbedding_unit_or_zero text rand

/-! ## EnhancedSearchService.mergeResults and combinedSearch
(enhancedSearch.js lines 18-69 and 200-252)

Scores here involve only field operations and rounding, so they are
modelled over the rationals.  The JS Map keyed by message id is modelled
as a list of records with distinct ids, in insertion order: set replaces
in place when the key is present and appends otherwise, exactly the
observable behaviour of Map.prototype.set before Array.from(values). -/

/-- One entry of the awaited wordSearch result list. -/
structure WordHit where
  id : String
  wordScore : ℚ
deriving DecidableEq

/-- One entry of the awaited semanticSearch result list. -/
structure SemHit where
  id : String
  similarity : ℚ
deriving DecidableEq

/-- An accumulating merge record.  JS adds finalScore and rank only in
the later stages; before that they carry the defaults 0. -/
structure MergedRec where
  id : String
  wordScore : Option ℚ
  similarity : Option ℚ
  combinedScore : ℚ
  sources : List String
  finalScore : ℚ
  rank : ℕ
deriving DecidableEq

/-- messageMap.get(id). -/
def mapGet (m : List MergedRec) (id : String) : Option MergedRec :=
  m.find? (fun r => r.id == id)

/-- messageMap.set(id, r), id being r.id. -/
def mapSet (m : List MergedRec) (r : MergedRec) : List MergedRec :=
  if m.any (fun x => x.id == r.id) then
    m.map (fun x => if x.id == r.id then r else x)
  else m ++ [r]

/-- The record created for a word hit: spread of the hit plus
combinedScore = wordScore * wordWeight and sources = [word]. -/
def wordRec (wordWeight : ℚ) (r : WordHit) : MergedRec :=
  { id := r.id, wordScore := some r.wordScore, similarity := none,
    combinedScore := r.wordScore * wordWeight, sources := ["word"],
    finalScore := 0, rank := 0 }

/-- The record created for a semantic hit with no existing entry. -/
def semRec (semanticWeight : ℚ) (r : SemHit) : MergedRec :=
  { id := r.id, wordScore := none, similarity := some r.similarity,
    combinedScore := r.similarity * semanticWeight, sources := ["semantic"],
    finalScore := 0, rank := 0 }

/-- Merging a semantic hit into the existing record: add
similarity * semanticWeight to the score, push the semantic tag, record
the similarity. -/
def semMerge (semanticWeight : ℚ) (ex : MergedRec) (r : SemHit) : MergedRec :=
  { ex with
    combinedScore := ex.combinedScore + r.similarity * semanticWeight,
    sources := ex.sources ++ ["semantic"],
    similarity := some r.similarity }

/-- First forEach of mergeResults: word hits. -/
def addWordHits (wordWeight : ℚ) (m : List MergedRec)
    (ws : List WordHit) : List MergedRec :=
  ws.foldl (fun m r => mapSet m (wordRec wordWeight r)) m

/-- Second forEach of mergeResults: semantic hits. -/
def addSemHits (semanticWeight : ℚ) (m : List MergedRec)
    (ss : List SemHit) : List MergedRec :=
  ss.foldl (fun m r =>
    match mapGet m r.id with
    | some ex => mapSet m (semMerge semanticWeight ex r)
    | none => mapSet m (semRec semanticWeight r)) m

/-- The tuned additive boost for records with a word source. -/
def WORD_BOOST : ℚ := 0.25

/-- Math.round(x * 10000) / 10000. -/
def round4 (q : ℚ) : ℚ := (round (q * 10000) : ℚ) / 10000

/-- The sort comparator (a, b) => b.finalScore - a.finalScore, i.e.
descending order of finalScore. -/
def finalGE (a b : MergedRec) : Prop := b.finalScore ≤ a.finalScore

instance : DecidableRel finalGE :=
  fun a b => inferInstanceAs (Decidable (b.finalScore ≤ a.finalScore))

instance : IsTotal MergedRec finalGE :=
  ⟨fun a b => le_total b.finalScore a.finalScore⟩

instance : IsTrans MergedRec finalGE :=
  ⟨fun _ _ _ h1 h2 => le_trans h2 h1⟩

/-- The boost stage of mergeResults: finalScore = combinedScore plus
WORD_BOOST when the sources include the word tag. -/
def boostRec (r : MergedRec) : MergedRec :=
  { r with finalScore := r.combinedScore +
      (if r.sources.contains "word" then WORD_BOOST else 0) }

/-- The rank-and-round stage: 1-based rank in sorted order and the
finalScore rounded to 4 decimals. -/
def rankRec (p : ℕ × MergedRec) : MergedRec :=
  { p.2 with rank := p.1 + 1, finalScore := round4 p.2.finalScore }

/-- EnhancedSearchService.mergeResults: build the map from word then
semantic hits, boost word-sourced records, sort descending by boosted
score, truncate to the limit, then assign ranks and round the scores. -/
def mergeResults (wordResults : List WordHit) (semanticResults : List SemHit)
    (wordWeight semanticWeight : ℚ) (limit : ℕ) : List MergedRec :=
  let m1 := addWordHits wordWeight [] wordResults
  let m2 := addSemHits semanticWeight m1 semanticResults
  let boosted := m2.map boostRec
  let combined := (List.insertionSort finalGE boosted).take limit
  combined.enum.map rankRec

/-- The options object of combinedSearch with its defaults. -/
structure SearchOptions where
  minSimilarity : ℚ := 0.1
  combineResults : Bool := true
  wordWeight : ℚ := 0.4
  semanticWeight : ℚ := 0.6
deriving DecidableEq

/-- The metadata block combinedSearch returns next to the results. -/
structure SearchMetadata where
  wordCount : ℕ
  semanticCount : ℕ
  combinedCount : ℕ
  searchTypeVectorDB : Bool
  wordWeight : ℚ
  semanticWeight : ℚ
deriving DecidableEq

/-- combinedSearch returns either the merged ranking or, with
combineResults false, the two raw branch lists. -/
inductive CombinedSearchOutput where
  | combined (results : List MergedRec) (meta : SearchMetadata)
  | separate (wordResults : List WordHit) (semanticResults : List SemHit)
deriving DecidableEq

/-- EnhancedSearchService.combinedSearch, with the two awaited branch
results passed in as oracles (they come from the message store). -/
def combinedSearch (wordResults : List WordHit)
    (semanticResults : List SemHit) (limit : ℕ) (opts : SearchOptions)
    (useVectorDB : Bool) : CombinedSearchOutput :=
  if !opts.combineResults then .separate wordResults semanticResults
  else
    let combinedResults := mergeResults wordResults semanticResults
      opts.wordWeight opts.semanticWeight limit
    .combined combinedResults
      { wordCount := wordResults.length,
        semanticCount := semanticResults.length,
        combinedCount := combinedResults.length,
        searchTypeVectorDB := useVectorDB,
        wordWeight := opts.wordWeight,
        semanticWeight := opts.semanticWeight }

/-! ## Facts about the merge map -/

theorem find?_cons_pos {α : Type _} (p : α → Bool) (a : α) (l : List α)
    (h : p a = true) : List.find? p (a :: l) = some a := by
  unfold List.find?
  rw [h]

theorem find?_cons_neg {α : Type _} (p : α → Bool) (a : α) (l : List α)
    (h : ¬p a = true) : List.find? p (a :: l) = List.find? p l := by
  have h0 : List.find? p (a :: l) = match p a with
      | true => some a
      | false => List.find? p l := rfl
  rw [h0, Bool.of_not_eq_true h]

theorem filter_cons_pos {α : Type _} (p : α → Bool) (a : α) (l : List α)
    (h : p a = true) : List.filter p (a :: l) = a :: List.filter p l := by
  rw [List.filter_cons, if_pos h]

theorem filter_cons_neg {α : Type _} (p : α → Bool) (a : α) (l : List α)
    (h : ¬p a = true) : List.filter p (a :: l) = List.filter p l := by
  rw [List.filter_cons, if_neg h]

theorem mapGet_mapSet_same (m : List MergedRec) (r : MergedRec) :
    mapGet (mapSet m r) r.id = some r := by
  unfold mapSet
  by_cases hc : m.any (fun x => x.id == r.id)
  · rw [if_pos hc]
    induction m with
    | nil => simp at hc
    | cons x m ih =>
      by_cases hx : x.id == r.id
      · unfold mapGet
        rw [List.map_cons, if_pos hx,
          find?_cons_pos (fun y : MergedRec => y.id == r.id) r _
            (beq_self_eq_true r.id)]
      · have hc2 : m.any (fun x => x.id == r.id) := by
          rcases List.any_eq_true.mp hc with ⟨y, hy, hpy⟩
          rcases List.mem_cons.mp hy with hy | hy
          · rw [hy] at hpy; exact absurd hpy hx
          · exact List.any_eq_true.mpr ⟨y, hy, hpy⟩
        unfold mapGet at ih ⊢
        rw [List.map_cons, if_neg hx,
          find?_cons_neg (fun y : MergedRec => y.id == r.id) x _ hx]
        exact ih hc2
  · rw [if_neg hc]
    unfold mapGet
    rw [List.find?_append]
    have h1 : m.find? (fun x => x.id == r.id) = none := by
      rw [List.find?_eq_none]
      intro x hx hpx
      exact hc (List.any_eq_true.mpr ⟨x, hx, hpx⟩)
    rw [h1, Option.none_or,
      find?_cons_pos (fun y : MergedRec => y.id == r.id) r _
        (beq_self_eq_true r.id)]

theorem mapGet_mapSet_other (m : List MergedRec) (r : MergedRec)
    {id : String} (h : r.id ≠ id) :
    mapGet (mapSet m r) id = mapGet m id := by
  unfold mapSet
  by_cases hc : m.any (fun x => x.id == r.id)
  · rw [if_pos hc]
    clear hc
    induction m with
    | nil => rfl
    | cons x m ih =>
      unfold mapGet at ih ⊢
      rw [List.map_cons]
      by_cases hx : x.id == r.id
      · rw [if_pos hx]
        have hpr : ¬(r.id == id) = true := fun hb => h (eq_of_beq hb)
        have hpx : ¬(x.id == id) = true := by
          intro hb
          exact h (eq_of_beq hx ▸ eq_of_beq hb)
        rw [find?_cons_neg (fun y : MergedRec => y.id == id) r _ hpr,
          find?_cons_neg (fun y : MergedRec => y.id == id) x _ hpx]
        exact ih
      · rw [if_neg hx]
        by_cases hpx : (x.id == id)
        · rw [find?_cons_pos (fun y : MergedRec => y.id == id) x _ hpx,
            find?_cons_pos (fun y : MergedRec => y.id == id) x _ hpx]
        · rw [find?_cons_neg (fun y : MergedRec => y.id == id) x _ hpx,
            find?_cons_neg (fun y : MergedRec => y.id == id) x _ hpx]
          exact ih
  · rw [if_neg hc]
    unfold mapGet
    rw [List.find?_append]
    have h1 : List.find? (fun x => x.id == id) [r] = none := by
      rw [List.find?_eq_none]
      intro x hx hpx
      rcases List.mem_cons.mp hx with hx | hx
      · rw [hx] at hpx; exact h (eq_of_beq hpx)
      · simp at hx
    rw [h1, Option.or_none]

theorem find?_some_pred {α : Type _} (p : α → Bool) {a : α} {l : List α}
    (h : List.find? p l = some a) : p a = true :=
  List.find?_some h

theorem mapGet_id {m : List MergedRec} {id : String} {r : MergedRec}
    (h : mapGet m id = some r) : r.id = id := by
  have h2 : List.find? (fun x => x.id == id) m = some r := h
  exact eq_of_beq (find?_some_pred (fun x : MergedRec => x.id == id) h2)

theorem mapGet_mem {m : List MergedRec} {id : String} {r : MergedRec}
    (h : mapGet m id = some r) : r ∈ m := by
  have h2 : List.find? (fun x => x.id == id) m = some r := h
  exact List.mem_of_find?_eq_some h2

/-! ## Behaviour of the two merge passes on a given message id -/

theorem addWordHits_get_absent (ww : ℚ) {ws : List WordHit} {mid : String}
    (m : List MergedRec) (h : ∀ w ∈ ws, w.id ≠ mid) :
    mapGet (addWordHits ww m ws) mid = mapGet m mid := by
  induction ws generalizing m with
  | nil => rfl
  | cons x ws ih =>
    unfold addWordHits at ih ⊢
    rw [List.foldl_cons, ih _ (fun w hw => h w (List.mem_cons_of_mem x hw)),
      mapGet_mapSet_other _ _ (h x (List.mem_cons_self x ws))]

theorem addWordHits_get_once (ww : ℚ) {ws : List WordHit} {mid : String}
    {w : WordHit} (m : List MergedRec)
    (h : ws.filter (fun x => x.id == mid) = [w]) :
    mapGet (addWordHits ww m ws) mid = some (wordRec ww w) := by
  induction ws generalizing m with
  | nil => simp at h
  | cons x ws ih =>
    by_cases hx : (x.id == mid)
    · rw [filter_cons_pos (fun x : WordHit => x.id == mid) x ws hx] at h
      have hxw : x = w := (List.cons.inj h).1
      have hrest : ws.filter (fun x => x.id == mid) = [] := (List.cons.inj h).2
      have habs : ∀ y ∈ ws, y.id ≠ mid := by
        intro y hy hne
        have : y ∈ ws.filter (fun x => x.id == mid) :=
          List.mem_filter.mpr ⟨hy, beq_iff_eq.mpr hne⟩
        rw [hrest] at this
        simp at this
      unfold addWordHits
      rw [List.foldl_cons]
      have := addWordHits_get_absent ww (mapSet m (wordRec ww x)) habs
      unfold addWordHits at this
      rw [this, hxw]
      have hid : (wordRec ww w).id = mid := by
        rw [← eq_of_beq hx, hxw]
        rfl
      rw [← hid, mapGet_mapSet_same]
    · rw [filter_cons_neg (fun x : WordHit => x.id == mid) x ws hx] at h
      unfold addWordHits at ih ⊢
      rw [List.foldl_cons]
      exact ih _ h

theorem addSemHits_get_absent (sw : ℚ) {ss : List SemHit} {mid : String}
    (m : List MergedRec) (h : ∀ s ∈ ss, s.id ≠ mid) :
    mapGet (addSemHits sw m ss) mid = mapGet m mid := by
  induction ss generalizing m with
  | nil => rfl
  | cons x ss ih =>
    unfold addSemHits at ih ⊢
    rw [List.foldl_cons]
    have hxid : x.id ≠ mid := h x (List.mem_cons_self x ss)
    have hstep : ∀ m2 : List MergedRec,
        mapGet (match mapGet m2 x.id with
          | some ex => mapSet m2 (semMerge sw ex x)
          | none => mapSet m2 (semRec sw x)) mid = mapGet m2 mid := by
      intro m2
      cases hg : mapGet m2 x.id with
      | some ex =>
        have : (semMerge sw ex x).id = x.id := by
          have := mapGet_id hg
          simpa [semMerge] using this
        exact mapGet_mapSet_other _ _ (this ▸ hxid)
      | none =>
        exact mapGet_mapSet_other _ _ hxid
    rw [ih _ (fun s hs => h s (List.mem_cons_of_mem x hs)), hstep m]

theorem addSemHits_get_once (sw : ℚ) {ss : List SemHit} {mid : String}
    {s : SemHit} (m : List MergedRec)
    (h : ss.filter (fun x => x.id == mid) = [s]) :
    mapGet (addSemHits sw m ss) mid =
      some (match mapGet m mid with
        | some ex => semMerge sw ex s
        | none => semRec sw s) := by
  induction ss generalizing m with
  | nil => simp at h
  | cons x ss ih =>
    by_cases hx : (x.id == mid)
    · rw [filter_cons_pos (fun x : SemHit => x.id == mid) x ss hx] at h
      have hxs : x = s := (List.cons.inj h).1
      have hrest : ss.filter (fun x => x.id == mid) = [] := (List.cons.inj h).2
      have habs : ∀ y ∈ ss, y.id ≠ mid := by
        intro y hy hne
        have : y ∈ ss.filter (fun x => x.id == mid) :=
          List.mem_filter.mpr ⟨hy, beq_iff_eq.mpr hne⟩
        rw [hrest] at this
        simp at this
      unfold addSemHits
      rw [List.foldl_cons]
      have habs2 := addSemHits_get_absent sw
        (match mapGet m x.id with
          | some ex => mapSet m (semMerge sw ex x)
          | none => mapSet m (semRec sw x)) habs
      unfold addSemHits at habs2
      rw [habs2]
      have hxid : x.id = mid := eq_of_beq hx
      rw [hxid, hxs]
      cases hg : mapGet m mid with
      | some ex =>
        have hid : (semMerge sw ex s).id = mid := by
          have := mapGet_id hg
          simpa [semMerge] using this
        rw [← hid, mapGet_mapSet_same]
      | none =>
        have hid : (semRec sw s).id = mid := by
          rw [← hxs, ← hxid]
          rfl
        rw [← hid, mapGet_mapSet_same]
    · rw [filter_cons_neg (fun x : SemHit => x.id == mid) x ss hx] at h
      unfold addSemHits at ih ⊢
      rw [List.foldl_cons]
      have hxid : x.id ≠ mid := fun he => hx (beq_iff_eq.mpr he)
      have hstep : mapGet (match mapGet m x.id with
          | some ex => mapSet m (semMerge sw ex x)
          | none => mapSet m (semRec sw x)) mid = mapGet m mid := by
        cases hg : mapGet m x.id with
        | some ex =>
          have : (semMerge sw ex x).id = x.id := by
            have := mapGet_id hg
            simpa [semMerge] using this
          exact mapGet_mapSet_other _ _ (this ▸ hxid)
        | none =>
          exact mapGet_mapSet_other _ _ hxid
      rw [ih _ h]
      rw [hstep]

/-! ## Key uniqueness and size of the merge map -/

/-- The keys of the merge map, in order. -/
def idsOf (m : List MergedRec) : List String := m.map (fun r => r.id)

theorem idsOf_replace (m : List MergedRec) (r : MergedRec) :
    idsOf (m.map (fun x => if x.id == r.id then r else x)) = idsOf m := by
  induction m with
  | nil => rfl
  | cons x m ih =>
    show (if (x.id == r.id) = true then r else x).id ::
      idsOf (m.map (fun x => if x.id == r.id then r else x)) = x.id :: idsOf m
    rw [ih]
    by_cases h : (x.id == r.id)
    · rw [if_pos h, eq_of_beq h]
    · rw [if_neg h]

theorem idsOf_nodup_mapSet {m : List MergedRec} (r : MergedRec)
    (h : (idsOf m).Nodup) : (idsOf (mapSet m r)).Nodup := by
  unfold mapSet
  by_cases hc : m.any (fun x => x.id == r.id)
  · rw [if_pos hc]
    exact idsOf_replace m r ▸ h
  · rw [if_neg hc]
    unfold idsOf
    rw [List.map_append, List.nodup_append]
    refine ⟨h, List.nodup_singleton r.id, ?_⟩
    intro a ha hb
    rcases List.mem_map.mp ha with ⟨x, hx, hxa⟩
    have hb2 : a = r.id := by simpa using hb
    have hany : (m.any fun x => x.id == r.id) = true :=
      List.any_eq_true.mpr
        ⟨x, hx, beq_iff_eq.mpr (show x.id = r.id by rw [hxa, hb2])⟩
    exact absurd hany hc

theorem idsOf_nodup_addWordHits (ww : ℚ) (ws : List WordHit)
    (m : List MergedRec) (h : (idsOf m).Nodup) :
    (idsOf (addWordHits ww m ws)).Nodup := by
  induction ws generalizing m with
  | nil => exact h
  | cons x ws ih =>
    unfold addWordHits at ih ⊢
    rw [List.foldl_cons]
    exact ih _ (idsOf_nodup_mapSet _ h)

theorem idsOf_nodup_addSemHits (sw : ℚ) (ss : List SemHit)
    (m : List MergedRec) (h : (idsOf m).Nodup) :
    (idsOf (addSemHits sw m ss)).Nodup := by
  induction ss generalizing m with
  | nil => exact h
  | cons x ss ih =>
    unfold addSemHits at ih ⊢
    rw [List.foldl_cons]
    refine ih _ ?_
    cases mapGet m x.id with
    | some ex => exact idsOf_nodup_mapSet _ h
    | none => exact idsOf_nodup_mapSet _ h

theorem mapSet_length_le (m : List MergedRec) (r : MergedRec) :
    (mapSet m r).length ≤ m.length + 1 := by
  unfold mapSet
  by_cases hc : m.any (fun x => x.id == r.id)
  · rw [if_pos hc, List.length_map]
    omega
  · rw [if_neg hc, List.length_append]
    simp

theorem addWordHits_length_le (ww : ℚ) (ws : List WordHit)
    (m : List MergedRec) :
    (addWordHits ww m ws).length ≤ m.length + ws.length := by
  induction ws generalizing m with
  | nil => simp [addWordHits]
  | cons x ws ih =>
    unfold addWordHits at ih ⊢
    rw [List.foldl_cons, List.length_cons]
    have h1 := ih (mapSet m (wordRec ww x))
    have h2 := mapSet_length_le m (wordRec ww x)
    omega

theorem addSemHits_length_le (sw : ℚ) (ss : List SemHit)
    (m : List MergedRec) :
    (addSemHits sw m ss).length ≤ m.length + ss.length := by
  induction ss generalizing m with
  | nil => simp [addSemHits]
  | cons x ss ih =>
    unfold addSemHits at ih ⊢
    rw [List.foldl_cons, List.length_cons]
    have h1 := ih (match mapGet m x.id with
      | some ex => mapSet m (semMerge sw ex x)
      | none => mapSet m (semRec sw x))
    have h2 : (match mapGet m x.id with
        | some ex => mapSet m (semMerge sw ex x)
        | none => mapSet m (semRec sw x)).length ≤ m.length + 1 := by
      cases mapGet m x.id with
      | some ex => exact mapSet_length_le _ _
      | none => exact mapSet_length_le _ _
    omega

theorem filter_id_singleton {m : List MergedRec} {rec : MergedRec}
    {mid : String} (hnd : (idsOf m).Nodup) (hmem : rec ∈ m)
    (hid : rec.id = mid) :
    m.filter (fun x => x.id == mid) = [rec] := by
  induction m with
  | nil => simp at hmem
  | cons x m ih =>
    have hnd2 : (idsOf m).Nodup := (List.nodup_cons.mp hnd).2
    have hx_not : x.id ∉ idsOf m := (List.nodup_cons.mp hnd).1
    rcases List.mem_cons.mp hmem with hmem | hmem
    · have hpx : (x.id == mid) = true := beq_iff_eq.mpr (hmem ▸ hid)
      rw [filter_cons_pos (fun y : MergedRec => y.id == mid) x m hpx]
      have hfil : m.filter (fun y => y.id == mid) = [] := by
        rw [List.filter_eq_nil_iff]
        intro y hy hpy
        apply hx_not
        have h1 : y.id = mid := eq_of_beq hpy
        have h2 : x.id = mid := hmem ▸ hid
        have h3 : y.id ∈ idsOf m := List.mem_map.mpr ⟨y, hy, rfl⟩
        rw [h2, ← h1]
        exact h3
      rw [hfil, hmem]
    · have hpx : ¬(x.id == mid) = true := by
        intro hb
        apply hx_not
        have h1 : x.id = mid := eq_of_beq hb
        have h2 : rec.id ∈ idsOf m := List.mem_map.mpr ⟨rec, hmem, rfl⟩
        rw [h1, ← hid]
        exact h2
      rw [filter_cons_neg (fun y : MergedRec => y.id == mid) x m hpx]
      exact ih hnd2 hmem

/-! ## Rounding, enumeration and sortedness helpers -/

theorem round4_mono {a b : ℚ} (h : a ≤ b) : round4 a ≤ round4 b := by
  unfold round4
  have h1 : a * 10000 ≤ b * 10000 :=
    mul_le_mul_of_nonneg_right h (by norm_num)
  have h2 : round (a * 10000) ≤ round (b * 10000) := by
    rw [round_eq, round_eq]
    exact Int.floor_le_floor (by linarith)
  have h3 : ((round (a * 10000) : ℤ) : ℚ) ≤ ((round (b * 10000) : ℤ) : ℚ) := by
    exact_mod_cast h2
  have h4 : (0:ℚ) < 10000 := by norm_num
  exact (div_le_div_iff_of_pos_right h4).mpr h3

theorem countP_enumFrom {α : Type _} (f : α → Bool) (l : List α) (n : ℕ) :
    List.countP (fun q : ℕ × α => f q.2) (List.enumFrom n l) =
      List.countP f l := by
  induction l generalizing n with
  | nil => rfl
  | cons x l ih =>
    show List.countP _ ((n, x) :: List.enumFrom (n + 1) l) = _
    rw [List.countP_cons, List.countP_cons, ih]

theorem snd_mem_of_mem_enumFrom {α : Type _} {q : ℕ × α} {l : List α}
    {n : ℕ} (h : q ∈ List.enumFrom n l) : q.2 ∈ l := by
  induction l generalizing n with
  | nil => simp at h
  | cons x l ih =>
    have h2 : q ∈ (n, x) :: List.enumFrom (n + 1) l := h
    rcases List.mem_cons.mp h2 with h3 | h3
    · rw [h3]
      exact List.mem_cons_self x l
    · exact List.mem_cons_of_mem x (ih h3)

theorem pairwise_enumFrom_snd {α : Type _} {R : α → α → Prop} {l : List α}
    (h : List.Pairwise R l) (n : ℕ) :
    List.Pairwise (fun p q : ℕ × α => R p.2 q.2) (List.enumFrom n l) := by
  induction h generalizing n with
  | nil => exact List.Pairwise.nil
  | cons hx _ ih =>
    exact List.Pairwise.cons
      (fun q hq => hx q.2 (snd_mem_of_mem_enumFrom hq)) (ih (n + 1))

/-! ## Shape of the mergeResults output -/

theorem mergeResults_length_le (ws : List WordHit) (ss : List SemHit)
    (ww sw : ℚ) (limit : ℕ) :
    (mergeResults ws ss ww sw limit).length ≤ limit := by
  show (((List.insertionSort finalGE
      ((addSemHits sw (addWordHits ww [] ws) ss).map boostRec)).take
        limit).enum.map rankRec).length ≤ limit
  rw [List.length_map, List.enum_length]
  exact List.length_take_le _ _

theorem mergeResults_sorted (ws : List WordHit) (ss : List SemHit)
    (ww sw : ℚ) (limit : ℕ) :
    List.Sorted finalGE (mergeResults ws ss ww sw limit) := by
  show List.Sorted finalGE (((List.insertionSort finalGE
      ((addSemHits sw (addWordHits ww [] ws) ss).map boostRec)).take
        limit).enum.map rankRec)
  have h1 := List.sorted_insertionSort finalGE
    ((addSemHits sw (addWordHits ww [] ws) ss).map boostRec)
  have h2 : List.Sorted finalGE ((List.insertionSort finalGE
      ((addSemHits sw (addWordHits ww [] ws) ss).map boostRec)).take limit) :=
    List.Pairwise.sublist (List.take_sublist limit _) h1
  have h3 := pairwise_enumFrom_snd h2 0
  exact List.Pairwise.map rankRec (fun p q hpq => round4_mono hpq) h3

theorem mergeResults_rank (ws : List WordHit) (ss : List SemHit)
    (ww sw : ℚ) (limit : ℕ) (i : ℕ)
    (hi : i < (mergeResults ws ss ww sw limit).length) :
    ((mergeResults ws ss ww sw limit).get ⟨i, hi⟩).rank = i + 1 := by
  rw [List.get_eq_getElem]
  show (((List.insertionSort finalGE
      ((addSemHits sw (addWordHits ww [] ws) ss).map boostRec)).take
        limit).enum.map rankRec)[i].rank = i + 1
  rw [List.getElem_map, List.getElem_enum]
  rfl

/-- C6: a message id that occurs exactly once in the lexical results and
exactly once in the semantic results yields exactly one record in the
merge output (counted here over the whole output, whose survival past the
truncation is guaranteed by the limit hypothesis), and that record's
final score is wordScore * wordWeight + similarity * semanticWeight plus
the fixed additive word boost (rounded for display), with both source
tags present. -/
theorem claim_C6 (ws : List WordHit) (ss : List SemHit) (ww sw : ℚ)
    (limit : ℕ) (mid : String) (w : WordHit) (s : SemHit)
    (hw : ws.filter (fun x => x.id == mid) = [w])
    (hs : ss.filter (fun x => x.id == mid) = [s])
    (hlim : ws.length + ss.length ≤ limit) :
    (mergeResults ws ss ww sw limit).countP (fun x => x.id == mid) = 1 ∧
    ∀ x ∈ mergeResults ws ss ww sw limit, x.id = mid →
      x.finalScore =
        round4 (w.wordScore * ww + s.similarity * sw + WORD_BOOST) ∧
      x.sources = ["word", "semantic"] := by
  have hw_id : w.id = mid := by
    have hwmem : w ∈ ws.filter (fun x => x.id == mid) := by
      rw [hw]
      exact List.mem_cons_self _ _
    exact eq_of_beq (List.mem_filter.mp hwmem).2
  have hget1 : mapGet (addWordHits ww [] ws) mid = some (wordRec ww w) :=
    addWordHits_get_once ww [] hw
  have hget2 : mapGet (addSemHits sw (addWordHits ww [] ws) ss) mid =
      some (semMerge sw (wordRec ww w) s) := by
    have h0 := addSemHits_get_once sw (addWordHits ww [] ws) hs
    rw [hget1] at h0
    exact h0
  have hrec_id : (semMerge sw (wordRec ww w) s).id = mid := hw_id
  have hmem : semMerge sw (wordRec ww w) s ∈
      addSemHits sw (addWordHits ww [] ws) ss := mapGet_mem hget2
  have hnd : (idsOf (addSemHits sw (addWordHits ww [] ws) ss)).Nodup :=
    idsOf_nodup_addSemHits _ _ _
      (idsOf_nodup_addWordHits _ _ _ List.Pairwise.nil)
  have hfil : (addSemHits sw (addWordHits ww [] ws) ss).filter
      (fun x => x.id == mid) = [semMerge sw (wordRec ww w) s] :=
    filter_id_singleton hnd hmem hrec_id
  have hfil_b : ((addSemHits sw (addWordHits ww [] ws) ss).map
      boostRec).filter (fun x => x.id == mid) =
      [boostRec (semMerge sw (wordRec ww w) s)] := by
    rw [List.filter_map]
    have hcomp : List.filter
        ((fun x : MergedRec => x.id == mid) ∘ boostRec)
        (addSemHits sw (addWordHits ww [] ws) ss) =
        List.filter (fun x : MergedRec => x.id == mid)
        (addSemHits sw (addWordHits ww [] ws) ss) := rfl
    rw [hcomp, hfil]
    rfl
  have hperm := List.perm_insertionSort finalGE
    ((addSemHits sw (addWordHits ww [] ws) ss).map boostRec)
  have hfil_s : (List.insertionSort finalGE
      ((addSemHits sw (addWordHits ww [] ws) ss).map boostRec)).filter
      (fun x => x.id == mid) = [boostRec (semMerge sw (wordRec ww w) s)] := by
    have hp := hperm.filter (fun x => x.id == mid)
    rw [hfil_b] at hp
    exact List.perm_singleton.mp hp
  have hlen2 : (addSemHits sw (addWordHits ww [] ws) ss).length ≤
      ws.length + ss.length := by
    have h1 := addSemHits_length_le sw ss (addWordHits ww [] ws)
    have h2 := addWordHits_length_le ww ws ([] : List MergedRec)
    simp only [List.length_nil] at h2
    omega
  have hsortlen : (List.insertionSort finalGE
      ((addSemHits sw (addWordHits ww [] ws) ss).map boostRec)).length =
      (addSemHits sw (addWordHits ww [] ws) ss).length := by
    rw [hperm.length_eq, List.length_map]
  have htake : (List.insertionSort finalGE
      ((addSemHits sw (addWordHits ww [] ws) ss).map boostRec)).take limit =
      List.insertionSort finalGE
        ((addSemHits sw (addWordHits ww [] ws) ss).map boostRec) :=
    List.take_of_length_le (by omega)
  have hMR : mergeResults ws ss ww sw limit =
      ((List.insertionSort finalGE
        ((addSemHits sw (addWordHits ww [] ws) ss).map boostRec)).take
          limit).enum.map rankRec := rfl
  constructor
  · rw [hMR, List.countP_map]
    have hc1 : List.countP
        ((fun x : MergedRec => x.id == mid) ∘ rankRec)
        ((List.insertionSort finalGE
          ((addSemHits sw (addWordHits ww [] ws) ss).map boostRec)).take
            limit).enum =
        List.countP (fun q : ℕ × MergedRec => q.2.id == mid)
        ((List.insertionSort finalGE
          ((addSemHits sw (addWordHits ww [] ws) ss).map boostRec)).take
            limit).enum := rfl
    rw [hc1]
    have hc2 : List.countP (fun q : ℕ × MergedRec => q.2.id == mid)
        ((List.insertionSort finalGE
          ((addSemHits sw (addWordHits ww [] ws) ss).map boostRec)).take
            limit).enum =
        List.countP (fun x : MergedRec => x.id == mid)
        ((List.insertionSort finalGE
          ((addSemHits sw (addWordHits ww [] ws) ss).map boostRec)).take
            limit) :=
      countP_enumFrom (fun x : MergedRec => x.id == mid)
        ((List.insertionSort finalGE
          ((addSemHits sw (addWordHits ww [] ws) ss).map boostRec)).take
            limit) 0
    rw [hc2, htake, List.countP_eq_length_filter, hfil_s]
    rfl
  · intro x hx hxid
    rw [hMR] at hx
    rcases List.mem_map.mp hx with ⟨q, hq, hq2⟩
    have hsnd : q.2 ∈ (List.insertionSort finalGE
        ((addSemHits sw (addWordHits ww [] ws) ss).map boostRec)).take
          limit := snd_mem_of_mem_enumFrom hq
    rw [htake] at hsnd
    have hq_id : q.2.id = mid := by
      rw [← hq2] at hxid
      exact hxid
    have hq_in_fil : q.2 ∈ (List.insertionSort finalGE
        ((addSemHits sw (addWordHits ww [] ws) ss).map boostRec)).filter
        (fun y => y.id == mid) :=
      List.mem_filter.mpr ⟨hsnd, beq_iff_eq.mpr hq_id⟩
    rw [hfil_s] at hq_in_fil
    have hq_eq : q.2 = boostRec (semMerge sw (wordRec ww w) s) := by
      simpa using hq_in_fil
    have hcontains : (["word", "semantic"] : List String).contains "word" =
        true := by decide
    constructor
    · rw [← hq2]
      show round4 q.2.finalScore =
        round4 (w.wordScore * ww + s.similarity * sw + WORD_BOOST)
      rw [hq_eq]
      show round4 ((w.wordScore * ww + s.similarity * sw) +
        (if (["word", "semantic"] : List String).contains "word"
          then WORD_BOOST else 0)) = _
      rw [hcontains]
      rfl
    · rw [← hq2]
      show q.2.sources = ["word", "semantic"]
      rw [hq_eq]
      rfl

/-- Witness for claim_C6 at a concrete singleton overlap. -/
theorem claim_C6_witness :
      (mergeResults [{ id := "m1", wordScore := 2 }]
      [{ id := "m1", similarity := 1/2 }] 0.4 0.6 10).countP
      (fun x => x.id == "m1") = 1 :=
  (claim_C6 [{ id := "m1", wordScore := 2 }]
    [{ id := "m1", similarity := 1/2 }] 0.4 0.6 10 "m1"
    { id := "m1", wordScore := 2 } { id := "m1", similarity := 1/2 }
    rfl rfl (by norm_num)).1

/-- C7: with combineResults true (the default), combinedSearch returns a
combined result list of at most limit entries, sorted by non-increasing
boosted-and-rounded final score, with 1-based ranks assigned in that
order.  The two collaborator result lists are universally quantified, so
this holds for every userId and query. -/
theorem claim_C7 (ws : List WordHit) (ss : List SemHit) (limit : ℕ)
    (opts : SearchOptions) (useVectorDB : Bool)
    (h : opts.combineResults = true) :
    ∃ res meta,
      combinedSearch ws ss limit opts useVectorDB = .combined res meta ∧
      res.length ≤ limit ∧
      List.Sorted (fun a b => b.finalScore ≤ a.finalScore) res ∧
      ∀ (i : ℕ) (hi : i < res.length), (res.get ⟨i, hi⟩).rank = i + 1 := by
  have hout : combinedSearch ws ss limit opts useVectorDB =
      CombinedSearchOutput.combined
        (mergeResults ws ss opts.wordWeight opts.semanticWeight limit)
        ⟨ws.length, ss.length,
          (mergeResults ws ss opts.wordWeight opts.semanticWeight
            limit).length, useVectorDB, opts.wordWeight,
          opts.semanticWeight⟩ := by
    unfold combinedSearch
    rw [h]
    rfl
  exact ⟨mergeResults ws ss opts.wordWeight opts.semanticWeight limit, _,
    hout, mergeResults_length_le _ _ _ _ _, mergeResults_sorted _ _ _ _ _,
    mergeResults_rank _ _ _ _ _⟩

/-- Witness for claim_C7 with the default options. -/
theorem claim_C7_witness :
    ∃ res meta,
      combinedSearch [{ id := "a", wordScore := 1 }] [] 5 {} false =
        .combined res meta ∧
      res.length ≤ 5 ∧
      List.Sorted (fun a b => b.finalScore ≤ a.finalScore) res ∧
      ∀ (i : ℕ) (hi : i < res.length), (res.get ⟨i, hi⟩).rank = i + 1 :=
  claim_C7 [{ id := "a", wordScore := 1 }] [] 5 {} false rfl

/-! ## Semantic search: mongoSemanticSearch fallback, the
EnhancedSearchService dispatcher and VectorDatabaseService.semanticSearch
(enhancedSearch.js lines 117-195, vectorDatabase.js lines 153-201) -/

/-- A message as stored in MongoDB, with its optional embedding. -/
structure StoredMessage where
  id : String
  senderId : String
  receiverId : String
  content : String
  timestamp : ℤ
  embedding : Option (List ℝ)

/-- One semantic search result: message fields plus similarity. -/
structure SemResult where
  id : String
  content : String
  timestamp : ℤ
  senderId : String
  receiverId : String
  similarity : ℝ
  score : ℝ

/-- Mongo sort {timestamp: -1}: non-increasing timestamps. -/
def tsDesc (a b : StoredMessage) : Prop := b.timestamp ≤ a.timestamp

instance : DecidableRel tsDesc :=
  fun a b => inferInstanceAs (Decidable (b.timestamp ≤ a.timestamp))

instance : IsTotal StoredMessage tsDesc :=
  ⟨fun a b => le_total b.timestamp a.timestamp⟩

instance : IsTrans StoredMessage tsDesc :=
  ⟨fun _ _ _ h1 h2 => le_trans h2 h1⟩

/-- The comparator (a, b) => b.similarity - a.similarity. -/
def simDesc (a b : SemResult) : Prop := b.similarity ≤ a.similarity

noncomputable instance : DecidableRel simDesc :=
  fun a b => inferInstanceAs (Decidable (b.similarity ≤ a.similarity))

instance : IsTotal SemResult simDesc :=
  ⟨fun a b => le_total b.similarity a.similarity⟩

instance : IsTrans SemResult simDesc :=
  ⟨fun _ _ _ h1 h2 => le_trans h2 h1⟩

/-- The Mongo query filter: the user is sender or receiver. -/
def participates (m : StoredMessage) (userId : String) : Bool :=
  m.senderId == userId || m.receiverId == userId

/-- embedding exists, is not null and is not of size 0. -/
def hasStoredEmbedding (m : StoredMessage) : Bool :=
  match m.embedding with
  | some e => !e.isEmpty
  | none => false

/-- The result record pushed for one matching message. -/
noncomputable def mkSemResult (m : StoredMessage) (sim : ℝ) : SemResult :=
  { id := m.id, content := m.content, timestamp := m.timestamp,
    senderId := m.senderId, receiverId := m.receiverId,
    similarity := sim, score := sim }

/-- EnhancedSearchService.mongoSemanticSearch: fetch the most recent 100
participant messages carrying a stored embedding, score each against the
query embedding with cosine similarity, keep those at or above the
threshold, sort descending by similarity and truncate to the limit.  The
message store and the query embedding are oracles. -/
noncomputable def mongoSemanticSearch (store : List StoredMessage)
    (userId : String) (queryEmbedding : List ℝ) (limit : ℕ)
    (minSimilarity : ℝ) : List SemResult :=
  let fetched := (List.insertionSort tsDesc
    (store.filter (fun m => participates m userId &&
      hasStoredEmbedding m))).take 100
  let results := fetched.filterMap (fun m =>
    match m.embedding with
    | some e =>
        let sim := cosineSimilarityES queryEmbedding e
        if minSimilarity ≤ sim then some (mkSemResult m sim) else none
    | none => none)
  (List.insertionSort simDesc results).take limit

/-- The status object vectorDatabase.getStats() resolves with; only the
enabled flag matters to the dispatcher. -/
structure VectorStats where
  enabled : Bool

/-- EnhancedSearchService.semanticSearch: consult getStats; when the
vector database reports enabled, use it, catching any rejection by
falling back to mongoSemanticSearch; when disabled, go to
mongoSemanticSearch directly. -/
noncomputable def semanticSearchES (stats : VectorStats)
    (vdbOutcome : Except String (List SemResult))
    (store : List StoredMessage) (userId : String)
    (queryEmbedding : List ℝ) (limit : ℕ) (minSimilarity : ℝ) :
    List SemResult :=
  if stats.enabled then
    match vdbOutcome with
    | .ok r => r
    | .error _ =>
        mongoSemanticSearch store userId queryEmbedding limit minSimilarity
  else mongoSemanticSearch store userId queryEmbedding limit minSimilarity

/-- The configuration of VectorDatabaseService. -/
structure VDBConfig where
  isEnabled : Bool

/-- One scored point returned by the remote vector search. -/
structure ScoredPoint where
  messageId : String
  content : String
  timestamp : ℤ
  senderId : String
  receiverId : String
  score : ℝ

/-- Math.round(x * 10000) / 10000 over the reals. -/
noncomputable def round4R (x : ℝ) : ℝ := (round (x * 10000) : ℝ) / 10000

/-- VectorDatabaseService.semanticSearch: when the service is disabled it
THROWS the error 'Vector search is not enabled'; otherwise the remote
search outcome (an oracle; an error is logged and rethrown) is filtered
by the similarity threshold, truncated to the limit and formatted. -/
noncomputable def vdbSemanticSearch (cfg : VDBConfig)
    (searchOutcome : Except String (List ScoredPoint)) (limit : ℕ)
    (minSimilarity : ℝ) : Except String (List SemResult) :=
  if !cfg.isEnabled then .error "Vector search is not enabled"
  else
    match searchOutcome with
    | .error e => .error e
    | .ok points =>
        .ok (((points.filter (fun p => minSimilarity ≤ p.score)).take
          limit).map (fun p =>
            { id := p.messageId, content := p.content,
              timestamp := p.timestamp, senderId := p.senderId,
              receiverId := p.receiverId, similarity := p.score,
              score := round4R p.score }))

/-! ## Shape of the mongoSemanticSearch output -/

theorem mongoSemanticSearch_length_le (store : List StoredMessage)
    (userId : String) (qe : List ℝ) (limit : ℕ) (minSim : ℝ) :
    (mongoSemanticSearch store userId qe limit minSim).length ≤ limit :=
  List.length_take_le _ _

theorem mongoSemanticSearch_sorted (store : List StoredMessage)
    (userId : String) (qe : List ℝ) (limit : ℕ) (minSim : ℝ) :
    List.Sorted simDesc (mongoSemanticSearch store userId qe limit minSim) :=
  List.Pairwise.sublist (List.take_sublist limit _)
    (List.sorted_insertionSort simDesc _)

theorem mongoSemanticSearch_mem {store : List StoredMessage}
    {userId : String} {qe : List ℝ} {limit : ℕ} {minSim : ℝ}
    {x : SemResult}
    (hx : x ∈ mongoSemanticSearch store userId qe limit minSim) :
    minSim ≤ x.similarity ∧
    ∃ m ∈ store, m.id = x.id ∧
      (m.senderId = userId ∨ m.receiverId = userId) ∧
      ∃ e, m.embedding = some e ∧
        x.similarity = cosineSimilarityES qe e := by
  have hx1 : x ∈ List.insertionSort simDesc
      (((List.insertionSort tsDesc
        (store.filter (fun m => participates m userId &&
          hasStoredEmbedding m))).take 100).filterMap (fun m =>
            match m.embedding with
            | some e =>
                let sim := cosineSimilarityES qe e
                if minSim ≤ sim then some (mkSemResult m sim) else none
            | none => none)) :=
    List.Sublist.mem hx (List.take_sublist limit _)
  have hx2 := (List.perm_insertionSort simDesc _).mem_iff.mp hx1
  rcases List.mem_filterMap.mp hx2 with ⟨m, hm, hfm⟩
  have hm2 : m ∈ List.insertionSort tsDesc
      (store.filter (fun m => participates m userId &&
        hasStoredEmbedding m)) :=
    List.Sublist.mem hm (List.take_sublist 100 _)
  have hm3 := (List.perm_insertionSort tsDesc _).mem_iff.mp hm2
  have hm4 := List.mem_filter.mp hm3
  have hpart : m.senderId = userId ∨ m.receiverId = userId := by
    have hb := hm4.2
    rcases Bool.or_eq_true_iff.mp (Bool.and_eq_true_iff.mp hb).1 with h | h
    · exact Or.inl (eq_of_beq h)
    · exact Or.inr (eq_of_beq h)
  cases hemb : m.embedding with
  | none =>
    rw [hemb] at hfm
    exact absurd hfm (by simp)
  | some e =>
    rw [hemb] at hfm
    by_cases hsim : minSim ≤ cosineSimilarityES qe e
    · have hfm2 : some (mkSemResult m (cosineSimilarityES qe e)) = some x := by
        rw [← hfm]
        show some (mkSemResult m (cosineSimilarityES qe e)) =
          (if minSim ≤ cosineSimilarityES qe e
            then some (mkSemResult m (cosineSimilarityES qe e)) else none)
        rw [if_pos hsim]
      have hxeq : x = mkSemResult m (cosineSimilarityES qe e) :=
        (Option.some.inj hfm2).symm
      refine ⟨?_, m, hm4.1, ?_, hpart, e, hemb, ?_⟩
      · rw [hxeq]
        exact hsim
      · rw [hxeq]
        rfl
      · rw [hxeq]
        rfl
    · have : (match some e with
          | some e =>
              let sim := cosineSimilarityES qe e
              if minSim ≤ sim then some (mkSemResult m sim) else none
          | none => none) = (none : Option SemResult) := by
        show (if minSim ≤ cosineSimilarityES qe e
          then some (mkSemResult m (cosineSimilarityES qe e)) else none) = none
        rw [if_neg hsim]
      rw [this] at hfm
      exact absurd hfm (by simp)

/-- C9: with the vector database reporting disabled (or its call
rejecting), EnhancedSearchService.semanticSearch returns, without
throwing, exactly the in-process mongoSemanticSearch fallback result,
and that result is well-shaped: at most limit entries, sorted by
non-increasing similarity, every entry at or above the threshold, and
every entry derived from a stored participant message with a stored
embedding via cosine similarity against the query embedding. -/
theorem claim_C9 (stats : VectorStats)
    (vdbOutcome : Except String (List SemResult))
    (store : List StoredMessage) (userId : String) (qe : List ℝ)
    (limit : ℕ) (minSim : ℝ)
    (hdis : stats.enabled = false ∨ ∃ e, vdbOutcome = .error e) :
    semanticSearchES stats vdbOutcome store userId qe limit minSim =
      mongoSemanticSearch store userId qe limit minSim ∧
    (mongoSemanticSearch store userId qe limit minSim).length ≤ limit ∧
    List.Sorted simDesc (mongoSemanticSearch store userId qe limit minSim) ∧
    ∀ x ∈ mongoSemanticSearch store userId qe limit minSim,
      minSim ≤ x.similarity ∧
      ∃ m ∈ store, m.id = x.id ∧
        (m.senderId = userId ∨ m.receiverId = userId) ∧
        ∃ e, m.embedding = some e ∧
          x.similarity = cosineSimilarityES qe e := by
  refine ⟨?_, mongoSemanticSearch_length_le _ _ _ _ _,
    mongoSemanticSearch_sorted _ _ _ _ _,
    fun x hx => mongoSemanticSearch_mem hx⟩
  unfold semanticSearchES
  rcases hdis with h | ⟨e, he⟩
  · rw [h]
    rfl
  · rw [he]
    cases hs : stats.enabled <;> rfl

/-- Witness for claim_C9 at a concrete disabled state. -/
theorem claim_C9_witness :
    semanticSearchES ⟨false⟩ (.ok []) [] "u" [] 5 0 =
      mongoSemanticSearch [] "u" [] 5 0 :=
  (claim_C9 ⟨false⟩ (.ok []) [] "u" [] 5 0 (Or.inl rfl)).1

/-- C10: a disabled VectorDatabaseService raises the error 'Vector
search is not enabled' from semanticSearch itself, rather than falling
back internally; the in-process fallback lives one layer up, in
EnhancedSearchService.semanticSearch, which routes to
mongoSemanticSearch when the stats report the vector database
disabled. -/
theorem claim_C10 (cfg : VDBConfig)
    (searchOutcome : Except String (List ScoredPoint)) (limit : ℕ)
    (minSim : ℝ) (h : cfg.isEnabled = false) :
    vdbSemanticSearch cfg searchOutcome limit minSim =
      .error "Vector search is not enabled" ∧
    ∀ (vdbOutcome : Except String (List SemResult))
      (store : List StoredMessage) (userId : String) (qe : List ℝ),
      semanticSearchES ⟨false⟩ vdbOutcome store userId qe limit minSim =
        mongoSemanticSearch store userId qe limit minSim := by
  constructor
  · unfold vdbSemanticSearch
    rw [h]
    rfl
  · intro vdbOutcome store userId qe
    unfold semanticSearchES
    rfl

/-- Witness for claim_C10 at a concrete disabled configuration. -/
theorem claim_C10_witness :
    vdbSemanticSearch ⟨false⟩ (.ok []) 5 0 =
      .error "Vector search is not enabled" :=
  (claim_C10 ⟨false⟩ (.ok []) 5 0 rfl).1

/-! ## The message-creation route (router.post in the messages routes)

The handler awaits embedding generation inline (its failure is caught and
the message is saved without an embedding), awaits the MongoDB save and
the populate calls, fires the Qdrant indexMessage WITHOUT awaiting it
(attaching only a catch that logs), and then responds 201.  The model
records the awaited steps in execution order, the detached background
steps, and whether a background rejection was logged. -/

/-- The observable steps of one request. -/
inductive RouteStep where
  | genEmbedding
  | saveMessage
  | populateMessage
  | indexVectorDB
  | respond (status : ℕ)
deriving DecidableEq

/-- Request validity and the outcomes of the external calls. -/
structure RouteEnv where
  hasSenderId : Bool
  hasReceiverId : Bool
  hasMessage : Bool
  embedOutcome : Except String (List ℝ)
  saveOk : Bool
  vdbEnabled : Bool
  indexOk : Bool

/-- What one request produced. -/
structure RouteOutcome where
  status : ℕ
  foreground : List RouteStep
  background : List RouteStep
  savedEmbedding : Option (List ℝ)
  backgroundErrorLogged : Bool

/-- The POST handler.  Validation failure responds 400; an embedding
rejection is caught and null is stored; a save rejection is caught by the
outer try and responds 500; otherwise the message is saved, populated,
the vector indexing is spawned detached when the vector database is
enabled, and 201 is returned regardless of the background outcome. -/
def handleCreateMessage (env : RouteEnv) : RouteOutcome :=
  if !(env.hasSenderId && env.hasReceiverId && env.hasMessage) then
    { status := 400, foreground := [.respond 400], background := [],
      savedEmbedding := none, backgroundErrorLogged := false }
  else
    let embedding : Option (List ℝ) :=
      match env.embedOutcome with
      | .ok v => some v
      | .error _ => none
    if !env.saveOk then
      { status := 500,
        foreground := [.genEmbedding, .saveMessage, .respond 500],
        background := [], savedEmbedding := none,
        backgroundErrorLogged := false }
    else
      { status := 201,
        foreground := [.genEmbedding, .saveMessage, .populateMessage,
          .respond 201],
        background := if env.vdbEnabled then [.indexVectorDB] else [],
        savedEmbedding := embedding,
        backgroundErrorLogged := env.vdbEnabled && !env.indexOk }

/-- A fully successful environment for the counterexample. -/
def envC5 : RouteEnv :=
  ⟨true, true, true, .ok (List.replicate 1536 0), true, true, true⟩

/-- C5 counterexample: the claim says embedding generation and vector
indexing both run as a detached background step, with the write path
completing before or independently of them.  In the code embedding
generation is a foreground step awaited BEFORE the message is persisted
and before the response is sent; only the vector indexing is detached. -/
theorem claim_C5_counterexample :
    RouteStep.genEmbedding ∈ (handleCreateMessage envC5).foreground ∧
    (handleCreateMessage envC5).foreground =
      [.genEmbedding, .saveMessage, .populateMessage, .respond 201] ∧
    RouteStep.genEmbedding ∉ (handleCreateMessage envC5).background := by
  refine ⟨?_, rfl, ?_⟩
  · show RouteStep.genEmbedding ∈
      [RouteStep.genEmbedding, .saveMessage, .populateMessage, .respond 201]
    exact List.mem_cons_self _ _
  · show RouteStep.genEmbedding ∉ [RouteStep.indexVectorDB]
    decide

/-- C5 (amended): for every valid request whose save succeeds, the
handler responds 201; vector indexing is the only detached background
step (present exactly when the vector database is enabled) and its
failure is logged, never propagated - the status, foreground steps and
stored embedding do not depend on the indexing outcome.  Embedding
generation, by contrast, runs inline on the write path before the save,
but its failure is also caught: the message is stored with a null
embedding and the request still succeeds. -/
theorem claim_C5_amended (env : RouteEnv)
    (hv : (env.hasSenderId && env.hasReceiverId && env.hasMessage) = true)
    (hs : env.saveOk = true) :
    (handleCreateMessage env).status = 201 ∧
    (handleCreateMessage env).foreground =
      [.genEmbedding, .saveMessage, .populateMessage, .respond 201] ∧
    (handleCreateMessage env).background =
      (if env.vdbEnabled then [.indexVectorDB] else []) ∧
    (∀ b, (handleCreateMessage { env with indexOk := b }).status = 201 ∧
      (handleCreateMessage { env with indexOk := b }).foreground =
        (handleCreateMessage env).foreground ∧
      (handleCreateMessage { env with indexOk := b }).savedEmbedding =
        (handleCreateMessage env).savedEmbedding) ∧
    (env.vdbEnabled = true → env.indexOk = false →
      (handleCreateMessage env).backgroundErrorLogged = true) ∧
    (∀ e, env.embedOutcome = .error e →
      (handleCreateMessage env).savedEmbedding = none ∧
      (handleCreateMessage env).status = 201) := by
  have hout : handleCreateMessage env =
      { status := 201,
        foreground := [.genEmbedding, .saveMessage, .populateMessage,
          .respond 201],
        background := if env.vdbEnabled then [.indexVectorDB] else [],
        savedEmbedding :=
          match env.embedOutcome with
          | .ok v => some v
          | .error _ => none,
        backgroundErrorLogged := env.vdbEnabled && !env.indexOk } := by
    unfold handleCreateMessage
    rw [hv, hs]
    rfl
  have houtB : ∀ b, handleCreateMessage { env with indexOk := b } =
      { status := 201,
        foreground := [.genEmbedding, .saveMessage, .populateMessage,
          .respond 201],
        background := if env.vdbEnabled then [.indexVectorDB] else [],
        savedEmbedding :=
          match env.embedOutcome with
          | .ok v => some v
          | .error _ => none,
        backgroundErrorLogged := env.vdbEnabled && !b } := by
    intro b
    unfold handleCreateMessage
    rw [show ({ env with indexOk := b } : RouteEnv).hasSenderId =
      env.hasSenderId from rfl]
    rw [show ({ env with indexOk := b } : RouteEnv).saveOk =
      env.saveOk from rfl]
    rw [hv, hs]
    rfl
  refine ⟨by rw [hout], by rw [hout], by rw [hout], ?_, ?_, ?_⟩
  · intro b
    rw [hout, houtB b]
    exact ⟨rfl, rfl, rfl⟩
  · intro hvdb hidx
    rw [hout, hvdb, hidx]
    rfl
  · intro e he
    rw [hout, he]
    exact ⟨rfl, rfl⟩

/-- Witness for claim_C5_amended: a valid request with a failing
background indexing still responds 201 and logs the failure. -/
theorem claim_C5_amended_witness :
    (handleCreateMessage ⟨true, true, true, .ok [], true, true,
      false⟩).status = 201 ∧
    (handleCreateMessage ⟨true, true, true, .ok [], true, true,
      false⟩).backgroundErrorLogged = true :=
  ⟨(claim_C5_amended ⟨true, true, true, .ok [], true, true, false⟩
      rfl rfl).1,
    (claim_C5_amended ⟨true, true, true, .ok [], true, true, false⟩
      rfl rfl).2.2.2.2.1 rfl rfl⟩
